import Mathlib

/-!
Verification of the record-linkage core of `leed_ll97_report`.

This file gives a shallow embedding of the normalizer
(`src/leed_ll97_report/normalize.py`) and the tiered matcher
(`src/leed_ll97_report/matching.py`) and proves / refutes the frozen
claims about them.

Conventions of the embedding:
* Python strings are Lean `String`s; all character-class tests
  (`\d`, `\s`, `\w`, upper/lower casing) are modelled on the ASCII
  fragment, which covers the data the program handles.
* `re.sub` is modelled by an explicit left-to-right, non-overlapping
  scanner over the character list (Python regex replacement scans the
  original string, so later matches are found in the original text).
* Machine integers are `Int`; similarity scores (Python floats produced
  by rapidfuzz) are exact rationals kept as integer fractions (`Score`).
  The concrete inputs used in the theorems make every float value
  exactly representable, so the exact model agrees with the float
  computation there.
* Fallible code (`ZeroDivisionError`, an uncaught `pandas` parse error)
  is modelled with `Except Unit`.
-/

namespace LeedLL97

/-! ## Python string primitives (ASCII fragment) -/

/-- Python `\s` on ASCII: space, tab, newline, carriage return,
vertical tab, form feed. -/
def isSpaceCh (c : Char) : Bool :=
  c = ' ' || c = '\t' || c = '\n' || c = '\r' || c = '\x0b' || c = '\x0c'

/-- Python `\w` on ASCII: letters, digits, underscore. -/
def isWordCh (c : Char) : Bool :=
  c.isAlpha || c.isDigit || c = '_'

/-- Python `str.strip()` (ASCII whitespace). -/
def pyStripL (l : List Char) : List Char :=
  ((l.dropWhile isSpaceCh).reverse.dropWhile isSpaceCh).reverse

/-- Python `str.strip()` on `String`. -/
def pyStrip (s : String) : String :=
  ⟨pyStripL s.data⟩

/-- Python `str.upper()` (ASCII). -/
def pyUpper (s : String) : String :=
  ⟨s.data.map Char.toUpper⟩

/-- Python `str.lower()` (ASCII). -/
def pyLower (s : String) : String :=
  ⟨s.data.map Char.toLower⟩

/-- Python `s.split(sep)[0]`: the part of the string before the first
occurrence of the (single-character) separator. -/
def beforeFirst (sep : Char) (s : String) : String :=
  ⟨s.data.takeWhile (· ≠ sep)⟩

/-- Python `re.sub(r"\D", "", s)`: keep only the (ASCII) digits. -/
def keepDigits (s : String) : String :=
  ⟨s.data.filter Char.isDigit⟩

/-- Python `str.zfill(width)` for a digit string: left-pad with zeros. -/
def zfill (width : Nat) (s : String) : String :=
  ⟨List.replicate (width - s.data.length) '0' ++ s.data⟩

/-- Scanner for `re.sub(r"\s+", " ", s).strip()`: the flag records a
pending (not yet emitted) whitespace run; a run followed by a non-space
character becomes one space, a trailing run is dropped. -/
def collapseAux : Bool → List Char → List Char
  | _, [] => []
  | pending, c :: cs =>
    if isSpaceCh c then collapseAux true cs
    else if pending then ' ' :: c :: collapseAux false cs
    else c :: collapseAux false cs

/-- Python `re.sub(r"\s+", " ", s).strip()`: collapse whitespace runs to
single spaces and trim (leading whitespace is dropped up front so the
scanner never emits a leading space). -/
def collapseWs (s : String) : String :=
  ⟨collapseAux false (s.data.dropWhile isSpaceCh)⟩

/-! ## Normalizer (`normalize.py`) -/

/-- `SUFFIX_MAP` from `normalize.py` (USPS street-suffix synonyms). -/
def SUFFIX_MAP : List (String × String) :=
  [("avenue", "AVE"), ("ave", "AVE"), ("av", "AVE"),
   ("boulevard", "BLVD"), ("blvd", "BLVD"),
   ("circle", "CIR"), ("cir", "CIR"),
   ("court", "CT"), ("ct", "CT"),
   ("drive", "DR"), ("dr", "DR"),
   ("expressway", "EXPY"), ("expy", "EXPY"),
   ("highway", "HWY"), ("hwy", "HWY"),
   ("lane", "LN"), ("ln", "LN"),
   ("parkway", "PKWY"), ("pkwy", "PKWY"),
   ("place", "PL"), ("pl", "PL"),
   ("plaza", "PLZ"), ("plz", "PLZ"),
   ("road", "RD"), ("rd", "RD"),
   ("square", "SQ"), ("sq", "SQ"),
   ("street", "ST"), ("st", "ST"), ("str", "ST"),
   ("terrace", "TER"), ("ter", "TER"),
   ("turnpike", "TPKE"), ("tpke", "TPKE"),
   ("way", "WAY")]

/-- `DIRECTION_MAP` from `normalize.py`. -/
def DIRECTION_MAP : List (String × String) :=
  [("north", "N"), ("south", "S"), ("east", "E"), ("west", "W"),
   ("northeast", "NE"), ("northwest", "NW"),
   ("southeast", "SE"), ("southwest", "SW"),
   ("n", "N"), ("s", "S"), ("e", "E"), ("w", "W"),
   ("ne", "NE"), ("nw", "NW"), ("se", "SE"), ("sw", "SW")]

/-- `BOROUGH_MAP` from `normalize.py`. -/
def BOROUGH_MAP : List (String × String) :=
  [("manhattan", "MANHATTAN"), ("new york", "MANHATTAN"), ("ny", "MANHATTAN"),
   ("bronx", "BRONX"), ("the bronx", "BRONX"), ("bx", "BRONX"),
   ("brooklyn", "BROOKLYN"), ("bk", "BROOKLYN"), ("kings", "BROOKLYN"),
   ("queens", "QUEENS"), ("qn", "QUEENS"),
   ("staten island", "STATEN ISLAND"), ("si", "STATEN ISLAND"),
   ("richmond", "STATEN ISLAND")]

/-- Association-list lookup (Python `dict.get(k)` on the tables above). -/
def tblGet (tbl : List (String × String)) (k : String) : Option String :=
  (tbl.find? (fun p => p.1 = k)).map Prod.snd

/-- `normalize_zip` from `normalize.py` (string input; `if not raw`
is the empty-string test for strings). -/
def normalize_zip (raw : String) : String :=
  if raw = "" then ""
  else
    let z := keepDigits (beforeFirst '.' (beforeFirst '-' (pyStrip raw)))
    if z.data.length = 5 then z
    else if z.data.length > 5 then ⟨z.data.take 5⟩
    else if z ≠ "" then zfill 5 z else ""

/-- `normalize_bbl` from `normalize.py`. -/
def normalize_bbl (raw : String) : String :=
  if raw = "" then ""
  else
    let bbl := keepDigits (pyStrip raw)
    if bbl.data.length = 10 then bbl
    else if bbl ≠ "" then bbl else ""

/-- `normalize_bin` from `normalize.py`. -/
def normalize_bin (raw : String) : String :=
  if raw = "" then ""
  else
    let b := keepDigits (beforeFirst '.' (pyStrip raw))
    if b.data.length = 7 then b
    else if b ≠ "" then b else ""

/-- `normalize_borough` from `normalize.py` (for string input the guard
`not isinstance(raw, str) or not raw.strip()` is "whitespace-only"). -/
def normalize_borough (raw : String) : String :=
  if pyStrip raw = "" then ""
  else
    match tblGet BOROUGH_MAP (pyLower (pyStrip raw)) with
    | some v => v
    | none => pyUpper (pyStrip raw)

/-- Python `str.split()` (no argument): split on whitespace runs,
dropping empty pieces.  `cur` accumulates the current word reversed. -/
def splitWsAux (cur : List Char) : List Char → List String
  | [] => if cur = [] then [] else [⟨cur.reverse⟩]
  | c :: cs =>
    if isSpaceCh c then
      if cur = [] then splitWsAux [] cs else ⟨cur.reverse⟩ :: splitWsAux [] cs
    else splitWsAux (c :: cur) cs

/-- Python `str.split()` on `String`. -/
def splitWs (s : String) : List String :=
  splitWsAux [] s.data

/-- Join with single spaces (Python `" ".join(parts)`). -/
def joinSpace (parts : List String) : String :=
  String.intercalate " " parts

/-- Scanner for `re.sub(rf"\b{w}\b", "", s)` with a non-empty literal
word `a :: w` (the fillers of `normalize_building_name`): `prevW` is the
word-character class of the previous character of the original string
(`false` at the start).  `re.sub` matches against the original string
left-to-right and non-overlapping, which this scanner reproduces. -/
def removeTokenAux (a : Char) (w : List Char) :
    Nat → Bool → List Char → List Char
  | 0, _, s => s
  | _ + 1, _, [] => []
  | fuel + 1, prevW, c :: cs =>
    let boundaryBefore := prevW != isWordCh c
    let afterOk :=
      match cs.drop w.length with
      | [] => true
      | d :: _ => ! isWordCh d
    if boundaryBefore && (a :: w).isPrefixOf (c :: cs) && afterOk then
      removeTokenAux a w fuel (isWordCh (w.getLastD a)) (cs.drop w.length)
    else
      c :: removeTokenAux a w fuel (isWordCh c) cs

/-- `re.sub(rf"\b{filler}\b", "", s)` for one filler word.  Every step
of the scanner consumes at least one character, so fuel equal to the
length of the string is enough for the scan to run to completion. -/
def removeToken (w : String) (s : String) : String :=
  match w.data with
  | [] => s
  | a :: rest => ⟨removeTokenAux a rest s.data.length false s.data⟩

/-- Punctuation class of `normalize_building_name` (periods, commas,
semicolons, colons, bangs, question marks, parens, quotes, hyphens and
slashes), replaced by spaces. -/
def NAME_PUNCT : List Char :=
  ['.', ',', ';', ':', '!', '?', '(', ')', '"', '\'', '-', '/']

/-- `normalize_building_name` from `normalize.py`: uppercase, strip
punctuation to spaces, remove the standalone filler tokens in the
source's order, collapse whitespace. -/
def normalize_building_name (raw : String) : String :=
  if pyStrip raw = "" then ""
  else
    let name := pyUpper (pyStrip raw)
    let name := ⟨name.data.map (fun c => if NAME_PUNCT.contains c then ' ' else c)⟩
    let name := ["THE", "BUILDING", "BLDG", "AT", "OF"].foldl
      (fun s f => removeToken f s) name
    collapseWs name

/-! ### `normalize_address` -/

/-- Punctuation removed (not spaced) by `normalize_address`:
`[.,;:!?()\"']` (hyphens are kept). -/
def ADDR_PUNCT : List Char :=
  ['.', ',', ';', ':', '!', '?', '(', ')', '"', '\'']

/-- Alternatives of `_UNIT_RE`, in the source's order (Python tries
alternatives left to right). -/
def UNIT_ALTS : List String :=
  ["suite", "ste", "unit", "apt", "apartment", "floor", "fl", "rm", "room", "#"]

/-- Case-insensitive literal prefix test (the `re.IGNORECASE` flag;
patterns are lowercase). -/
def ciPrefix : List Char → List Char → Bool
  | [], _ => true
  | _ :: _, [] => false
  | a :: w, c :: s => Char.toLower c = a && ciPrefix w s

/-- Attempt to match `_UNIT_RE` = `\b(suite|ste|...|#)\s*[\w\-]*` at the
current position.  `prevW` is the word-class of the previous character;
`\b` holds iff it differs from the word-class of the current character.
On success returns (word-class of the last matched character,
total matched length minus one). -/
def unitHit (prevW : Bool) (c : Char) (cs : List Char) : Option (Bool × Nat) :=
  if prevW = isWordCh c then none
  else
    match UNIT_ALTS.find? (fun alt => ciPrefix alt.data (c :: cs)) with
    | none => none
    | some alt =>
      let k := alt.data.length
      let rest1 := (c :: cs).drop k
      let sp := (rest1.takeWhile isSpaceCh).length
      let rest2 := rest1.drop sp
      let wd := (rest2.takeWhile (fun d => isWordCh d || d = '-')).length
      let total := k + sp + wd
      some (isWordCh (((c :: cs).take total).getLastD c), total - 1)

/-- Scanner for `_UNIT_RE.sub("", addr)` (fuelled; each step consumes at
least one character). -/
def unitSubAux : Nat → Bool → List Char → List Char
  | 0, _, s => s
  | _ + 1, _, [] => []
  | fuel + 1, prevW, c :: cs =>
    match unitHit prevW c cs with
    | some (lastW, k) => unitSubAux fuel lastW (cs.drop k)
    | none => c :: unitSubAux fuel (isWordCh c) cs

/-- `_UNIT_RE.sub("", addr)`. -/
def unitSub (s : String) : String :=
  ⟨unitSubAux s.data.length false s.data⟩

/-- The two-letter ordinal endings of `_ORDINAL_RE`
(`st|nd|rd|th`, case-insensitive), followed by a `\b` test. -/
def ordEnding : List Char → Bool
  | a :: b :: rest =>
    (((Char.toLower a = 's' && Char.toLower b = 't') ||
      (Char.toLower a = 'n' && Char.toLower b = 'd') ||
      (Char.toLower a = 'r' && Char.toLower b = 'd') ||
      (Char.toLower a = 't' && Char.toLower b = 'h'))) &&
    (match rest with
     | [] => true
     | d :: _ => ¬ isWordCh d)
  | _ => false

/-- Scanner for `_ORDINAL_RE.sub(r"\1", addr)` where
`_ORDINAL_RE = (\d+)\s*(st|nd|rd|th)\b`.  A match can only start at a
digit; `\d+` is greedy and backtracking into the digit run cannot help
(the ending never matches at a digit), so trying the full run suffices.
On a match the digit group is kept and the spaces and ending dropped. -/
def ordSubAux : Nat → List Char → List Char
  | 0, s => s
  | _ + 1, [] => []
  | fuel + 1, c :: cs =>
    if c.isDigit then
      let ds := c :: cs.takeWhile Char.isDigit
      let rest1 := cs.drop (ds.length - 1)
      let sp := (rest1.takeWhile isSpaceCh).length
      let rest2 := rest1.drop sp
      if ordEnding rest2 then ds ++ ordSubAux fuel (rest2.drop 2)
      else c :: ordSubAux fuel cs
    else c :: ordSubAux fuel cs

/-- `_ORDINAL_RE.sub(r"\1", addr)` (fuelled; each step consumes at least
one character). -/
def ordSub (s : String) : String :=
  ⟨ordSubAux s.data.length s.data⟩

/-- Components tagged by the structured address parse, in the source's
reassembly order: AddressNumber, StreetNamePreDirectional, StreetName,
StreetNamePostType, StreetNamePostDirectional (empty string = absent). -/
structure ParsedAddr where
  num : String
  predir : String
  name : String
  suffix : String
  postdir : String

/-- House-number shape: digits, optionally with interior hyphens
(e.g. Queens-style `123-45`), starting with a digit. -/
def isHouseNum (t : String) : Bool :=
  match t.data with
  | [] => false
  | c :: _ => c.isDigit && t.data.all (fun d => d.isDigit || d = '-')

/-- Modelled from the spec: the structured parse done by the external
`usaddress.tag` library (its code is not part of this repository).  The
spec says the address is parsed into "(house number, pre-directional,
street name, suffix, post-directional)"; this model takes a leading
house-number-shaped token, then a directional word, then takes from the
end a directional word and a street-suffix word (each only when known
to the source's synonym tables, and never consuming the last remaining
token), and leaves the middle as the street name.  The
`RepeatedLabelError` fallback path of the source is not reachable in
this total model. -/
def tagAddress (tokens : List String) : ParsedAddr :=
  let (num, r1) :=
    match tokens with
    | t :: rest => if isHouseNum t then (t, rest) else ("", tokens)
    | [] => ("", tokens)
  let (pre, r2) :=
    match r1 with
    | t :: rest =>
      if (tblGet DIRECTION_MAP (pyLower t)).isSome && rest ≠ [] then (t, rest)
      else ("", r1)
    | [] => ("", r1)
  let (post, r3) :=
    match r2.getLast? with
    | some t =>
      if (tblGet DIRECTION_MAP (pyLower t)).isSome && r2.length ≥ 2 then
        (t, r2.dropLast)
      else ("", r2)
    | none => ("", r2)
  let (suf, r4) :=
    match r3.getLast? with
    | some t =>
      if (tblGet SUFFIX_MAP (pyLower t)).isSome && r3.length ≥ 2 then
        (t, r3.dropLast)
      else ("", r3)
    | none => ("", r3)
  ⟨num, pre, joinSpace r4, suf, post⟩

/-- `normalize_address` from `normalize.py`: uppercase, remove
punctuation (hyphens kept), remove unit designators, normalize
ordinals, collapse whitespace, structured parse, standardize suffix and
directionals, reassemble in fixed order; if no component was tagged,
return the cleaned string. -/
def normalize_address (raw : String) : String :=
  if pyStrip raw = "" then ""
  else
    let a := pyUpper (pyStrip raw)
    let a := ⟨a.data.filter (fun c => ! ADDR_PUNCT.contains c)⟩
    let a := unitSub a
    let a := ordSub a
    let addr := collapseWs a
    let p := tagAddress (splitWs addr)
    let suf :=
      match tblGet SUFFIX_MAP (pyLower p.suffix) with
      | some v => v
      | none => p.suffix
    let pre :=
      match tblGet DIRECTION_MAP (pyLower p.predir) with
      | some v => v
      | none => p.predir
    let post :=
      match tblGet DIRECTION_MAP (pyLower p.postdir) with
      | some v => v
      | none => p.postdir
    let parts := [p.num, pre, p.name, suf, post].filter (fun t => t ≠ "")
    if parts = [] then addr else joinSpace parts

/-- `_fallback_normalize` from `normalize.py` (used by the source when
`usaddress.tag` raises `RepeatedLabelError`; the spec-modelled parser
above is total, so the model never takes this path — kept for
reference). -/
def fallback_normalize (addr : String) : String :=
  joinSpace ((splitWs addr).map (fun w =>
    match tblGet SUFFIX_MAP (pyLower w) with
    | some v => v
    | none =>
      match tblGet DIRECTION_MAP (pyLower w) with
      | some v => v
      | none => w))

/-! ## Matcher (`matching.py`) -/

/-- `_clean` from `match_buildings`: strip, and map the strings
`"nan"` / `"none"` (case-insensitive) and `""` to the empty string.
(The `str(val)` conversion is the identity here because the embedded
cell values are strings.) -/
def cleanS (v : String) : String :=
  let s := pyStrip v
  if pyLower s = "nan" || pyLower s = "none" || s = "" then "" else s

/-- One NYC-side row, with the columns `match_buildings` reads. -/
structure NycRow where
  bbl_norm : String
  bin_norm : String
  address_norm : String
  zip_norm : String
  building_name_norm : String
  borough_norm : String
deriving DecidableEq

/-- One LEED-side row, with the columns `match_buildings` reads. -/
structure LeedRow where
  source_id : String
  bbl_norm : String
  bin_norm : String
  address_norm : String
  zip_norm : String
  building_name_norm : String
  borough_norm : String
  building_name_raw : String
  address_raw : String
  zip : String
deriving DecidableEq

/-- Matcher configuration (the source's keyword arguments). -/
structure MatchCfg where
  fuzzy_address_threshold : Int
  fuzzy_name_threshold : Int
  min_confidence : Int
deriving DecidableEq

/-- The source's default configuration (80 / 75 / 50). -/
def defaultCfg : MatchCfg := ⟨80, 75, 50⟩

/-- `nyc_by_bbl[key][0]` for a non-empty key: the rows are indexed by
position (the DataFrame's default integer index), and the dict keeps
positions in insertion order, so the head of the bucket is the first
row whose cleaned `bbl_norm` equals the key. -/
def nycByBbl (nyc : List NycRow) (k : String) : Option Nat :=
  nyc.findIdx? (fun r => cleanS r.bbl_norm = k)

/-- `nyc_by_bin[key][0]` for a non-empty key. -/
def nycByBin (nyc : List NycRow) (k : String) : Option Nat :=
  nyc.findIdx? (fun r => cleanS r.bin_norm = k)

/-- `nyc_by_addr_zip[key][0]`: the key is the literal string
`addr ++ "|" ++ zip`, inserted only when both parts are non-empty. -/
def addrZipIdx (nyc : List NycRow) (key : String) : Option Nat :=
  nyc.findIdx? (fun r =>
    let a := cleanS r.address_norm
    let z := cleanS r.zip_norm
    a ≠ "" && z ≠ "" && (a ++ "|" ++ z) = key)

/-- `nyc_addr_list`, built in row order starting at position `k`:
entries `(position, cleaned address, cleaned zip, cleaned name)` for
every row with a non-empty cleaned address. -/
def addrListFrom (k : Nat) : List NycRow → List (Nat × String × String × String)
  | [] => []
  | r :: rs =>
    let a := cleanS r.address_norm
    if a ≠ "" then
      (k, a, cleanS r.zip_norm, cleanS r.building_name_norm) :: addrListFrom (k + 1) rs
    else addrListFrom (k + 1) rs

/-- `nyc_addr_list` (also the iteration order of the `nyc_addresses`,
`nyc_zips` and `nyc_names` dicts built from it). -/
def addrList (nyc : List NycRow) : List (Nat × String × String × String) :=
  addrListFrom 0 nyc

/-- The entries of `nyc_names`: only rows from `nyc_addr_list` whose
cleaned name is non-empty. -/
def namesList (nyc : List NycRow) : List (Nat × String × String × String) :=
  (addrList nyc).filter (fun e => e.2.2.2 ≠ "")

/-- `nyc_df.loc[idx].get("borough_norm", "")` for a row position. -/
def boroRaw (nyc : List NycRow) (i : Nat) : String :=
  ((nyc.get? i).map (fun r => r.borough_norm)).getD ""

/-! ### rapidfuzz: `fuzz.token_sort_ratio` and `process.extractOne` -/

/-- One row of the longest-common-subsequence DP: `diag` is the previous
row's entry at the current column, `left` the freshly computed entry. -/
def lcsAux (x : Char) : List Char → List Nat → Nat → Nat → List Nat
  | [], _, _, _ => []
  | _ :: _, [], _, _ => []
  | y :: ys, p :: ps, diag, left =>
    let cur := if x = y then diag + 1 else max left p
    cur :: lcsAux x ys ps p cur

/-- Advance the LCS DP by one character of the first string. -/
def lcsStep (ys : List Char) (prev : List Nat) (x : Char) : List Nat :=
  match prev with
  | [] => []
  | p0 :: ps => 0 :: lcsAux x ys ps p0 0

/-- Length of a longest common subsequence (dynamic programming). -/
def lcsLen (xs ys : List Char) : Nat :=
  (xs.foldl (lcsStep ys) (List.replicate (ys.length + 1) 0)).getLastD 0

/-- An exact rational similarity score, kept as an unreduced fraction
with positive denominator (the float values rapidfuzz computes are
exactly these rationals, up to float rounding; every concrete score in
this file is exactly representable as a float). -/
structure Score where
  num : Int
  den : Int
deriving DecidableEq

/-- Embed an integer threshold as a score. -/
def intScore (t : Int) : Score := ⟨t, 1⟩

/-- Exact `a < b` on scores (denominators are positive by
construction). -/
def scoreLt (a b : Score) : Bool :=
  a.num * b.den < b.num * a.den

/-- rapidfuzz `fuzz.ratio`: normalized indel similarity in [0, 100].
The indel distance of `a`, `b` is `len a + len b - 2·lcs`, so the
similarity is `200·lcs / (len a + len b)`; two empty strings score
100. -/
def ratioScore (a b : String) : Score :=
  let la := a.data.length
  let lb := b.data.length
  if la + lb = 0 then ⟨100, 1⟩
  else ⟨(200 * lcsLen a.data b.data : Nat), (la + lb : Nat)⟩

/-- Lexicographic order on character lists by code point (Python's
string comparison). -/
def lexLe : List Char → List Char → Bool
  | [], _ => true
  | _ :: _, [] => false
  | c :: cs, d :: ds =>
    if c.val < d.val then true
    else if d.val < c.val then false
    else lexLe cs ds

/-- Insert into an ascending list (insertion sort step). -/
def insertSorted (x : String) : List String → List String
  | [] => [x]
  | y :: ys => if lexLe x.data y.data then x :: y :: ys else y :: insertSorted x ys

/-- Sort strings ascending (Python `sorted`; equal keys are identical
strings, so stability cannot change the result). -/
def sortStrs : List String → List String
  | [] => []
  | x :: xs => insertSorted x (sortStrs xs)

/-- Sort the whitespace-separated tokens and rejoin (the token-sort
preprocessing of `fuzz.token_sort_ratio`). -/
def sortedJoin (s : String) : String :=
  joinSpace (sortStrs (splitWs s))

/-- rapidfuzz `fuzz.token_sort_ratio` as an exact rational score. -/
def tokenSortScore (a b : String) : Score :=
  ratioScore (sortedJoin a) (sortedJoin b)

/-- Fold of `process.extractOne`: walk the candidate dict in insertion
order, skip scores below the cutoff, keep a strictly better score
(ties keep the earlier candidate).  Returns `(choice, score, key)`. -/
def extractBest (q : String) (cutoff : Score) :
    List (Nat × String) → Option (String × Score × Nat) →
    Option (String × Score × Nat)
  | [], best => best
  | (i, t) :: rest, best =>
    let s := tokenSortScore q t
    let best' :=
      if scoreLt s cutoff then best
      else
        match best with
        | none => some (t, s, i)
        | some (_, bs, _) => if scoreLt bs s then some (t, s, i) else best
    extractBest q cutoff rest best'

/-- `process.extractOne(q, dict(cands), scorer=fuzz.token_sort_ratio,
score_cutoff=cutoff)`. -/
def extractOne (q : String) (cands : List (Nat × String)) (cutoff : Score) :
    Option (String × Score × Nat) :=
  extractBest q cutoff cands none

/-- Python `int(n / d)` for an exact fraction: truncation toward zero
(`Int.tdiv` is T-division). -/
def pyIntFrac (n d : Int) : Int :=
  Int.tdiv n d

/-- Python float formatting of `n / d` (positive `d`) with `.0f`
(round half to even), used only inside free-text match notes. -/
def fmtScore0 (s : Score) : String :=
  let fl := Int.fdiv s.num s.den
  let rem := s.num - fl * s.den
  let r : Int :=
    if 2 * rem > s.den then fl + 1
    else if 2 * rem < s.den then fl
    else if fl % 2 = 0 then fl else fl + 1
  toString r

/-- The fuzzy-tier confidence computation
`int(base + (score - t) * 19 / (100 - t))` clamped to `[base, cap]`,
written as the equal single fraction
`(base·(100-t)·den + (num - t·den)·19) / ((100-t)·den)`.
Python raises `ZeroDivisionError` when `100 - t == 0`, modelled as
`Except.error`. -/
def fuzzyConf (base cap t : Int) (score : Score) : Except Unit Int :=
  if (100 : Int) - t = 0 then Except.error ()
  else
    let c := pyIntFrac
      (base * (100 - t) * score.den + (score.num - t * score.den) * 19)
      ((100 - t) * score.den)
    Except.ok (min cap (max base c))

deriving instance DecidableEq for Except

/-! ### The tiered strategies -/

/-- The running best-so-far of the matcher loop: `best_match`,
`best_confidence`, `best_method`, `best_notes`. -/
structure BState where
  idx : Option Nat
  conf : Int
  meth : String
  note : String
deriving DecidableEq

/-- Python truthiness of `best_match` (`not best_match`): `None` is
falsy, and so is the integer row position `0`.  This is the test the
source uses in strategy 3b. -/
def falsyIdx : Option Nat → Bool
  | none => true
  | some n => n == 0

/-- Strategy 1: exact BBL. -/
def tier1 (nyc : List NycRow) (lbbl : String) (s : BState) : BState :=
  if lbbl ≠ "" then
    match nycByBbl nyc lbbl with
    | some i => ⟨some i, 100, "exact_bbl", "BBL=" ++ lbbl⟩
    | none => s
  else s

/-- Strategy 2: exact BIN (the source's inner `if best_confidence < 100`
is subsumed by the outer one). -/
def tier2 (nyc : List NycRow) (lbin : String) (s : BState) : BState :=
  if s.conf < 100 ∧ lbin ≠ "" then
    match nycByBin nyc lbin with
    | some i => ⟨some i, 100, "exact_bin", "BIN=" ++ lbin⟩
    | none => s
  else s

/-- Strategy 3: exact address + zip. -/
def tier3 (nyc : List NycRow) (laddr lzip : String) (s : BState) : BState :=
  if s.conf < 95 ∧ laddr ≠ "" ∧ lzip ≠ "" then
    match addrZipIdx nyc (laddr ++ "|" ++ lzip) with
    | some i =>
      ⟨some i, 90, "exact_address", "addr=" ++ laddr ++ ", zip=" ++ lzip⟩
    | none => s
  else s

/-- The scan of strategy 3b over `nyc_addresses.items()`: stop (break)
at the first exact address match with agreeing non-empty boroughs;
otherwise take an unqualified exact address match whenever
`not best_match or best_confidence < 85` — which by Python truthiness
is also true when the current best is row position `0`. -/
def scan3b (nyc : List NycRow) (laddr lboro : String) :
    List (Nat × String × String × String) → BState → BState
  | [], s => s
  | (i, a, _, _) :: rest, s =>
    if a = laddr then
      let nb := cleanS (boroRaw nyc i)
      if lboro ≠ "" ∧ nb ≠ "" ∧ lboro = nb then
        ⟨some i, 88, "exact_address_borough",
          "addr=" ++ laddr ++ ", borough=" ++ lboro⟩
      else if falsyIdx s.idx || s.conf < 85 then
        scan3b nyc laddr lboro rest
          ⟨some i, 85, "exact_address_no_zip", "addr=" ++ laddr⟩
      else scan3b nyc laddr lboro rest s
    else scan3b nyc laddr lboro rest s

/-- Strategy 3b: exact address without zip. -/
def tier3b (nyc : List NycRow) (laddr lboro : String) (s : BState) : BState :=
  if s.conf < 90 ∧ laddr ≠ "" then scan3b nyc laddr lboro (addrList nyc) s
  else s

/-- Candidate pool of strategy 4 (fuzzy address): same cleaned zip when
both sides have one, otherwise — including when the zips are both
present but different — same cleaned borough, provided the LEED side
has a borough. -/
def tier4cands (nyc : List NycRow) (lzip lboro : String) :
    List (Nat × String) :=
  (addrList nyc).filterMap (fun e =>
    let (i, a, z, _) := e
    if lzip ≠ "" ∧ z ≠ "" ∧ lzip = z then some (i, a)
    else if lboro ≠ "" then
      if cleanS (boroRaw nyc i) = lboro then some (i, a) else none
    else none)

/-- Strategy 4: fuzzy address within same zip or borough. -/
def tier4 (nyc : List NycRow) (laddr lzip lboro : String) (ta : Int)
    (s : BState) : Except Unit BState :=
  if s.conf < 80 ∧ laddr ≠ "" then
    let cands := tier4cands nyc lzip lboro
    if cands ≠ [] then
      match extractOne laddr cands (intScore ta) with
      | none => Except.ok s
      | some (mstr, score, i) =>
        match fuzzyConf 70 89 ta score with
        | Except.error e => Except.error e
        | Except.ok c =>
          Except.ok
            (if c > s.conf then
              ⟨some i, c, "fuzzy_address",
                "score=" ++ fmtScore0 score ++ ", addr=" ++ mstr⟩
            else s)
    else Except.ok s
  else Except.ok s

/-- Candidate pool of strategy 5 (fuzzy name): non-empty cleaned name
and same cleaned zip, or same borough — here the source compares the
LEED borough against `str(...)` of the raw `borough_norm` cell, not the
cleaned one. -/
def tier5cands (nyc : List NycRow) (lzip lboro : String) :
    List (Nat × String) :=
  (namesList nyc).filterMap (fun e =>
    let (i, _, z, nm) := e
    if nm = "" then none
    else
      let sameZip : Bool := if lzip ≠ "" then z == lzip else false
      let sameBoro : Bool := if lboro ≠ "" then boroRaw nyc i == lboro else false
      if sameZip || sameBoro then some (i, nm) else none)

/-- Strategy 5: fuzzy name within same zip or borough. -/
def tier5 (nyc : List NycRow) (lname lzip lboro : String) (tn : Int)
    (s : BState) : Except Unit BState :=
  if s.conf < 70 ∧ lname ≠ "" then
    let cands := tier5cands nyc lzip lboro
    if cands ≠ [] then
      match extractOne lname cands (intScore tn) with
      | none => Except.ok s
      | some (mstr, score, i) =>
        match fuzzyConf 50 69 tn score with
        | Except.error e => Except.error e
        | Except.ok c =>
          Except.ok
            (if c > s.conf then
              ⟨some i, c, "fuzzy_name",
                "score=" ++ fmtScore0 score ++ ", name=" ++ mstr⟩
            else s)
    else Except.ok s
  else Except.ok s

/-- Strategies 1 through 3b composed (all the infallible tiers). -/
def prefixState (nyc : List NycRow) (lbbl lbin laddr lzip lboro : String) :
    BState :=
  tier3b nyc laddr lboro
    (tier3 nyc laddr lzip
      (tier2 nyc lbin
        (tier1 nyc lbbl ⟨none, 0, "", ""⟩)))

/-- The per-record matching loop body of `match_buildings`: clean the
LEED fields and run the five strategies in order. -/
def matchState (cfg : MatchCfg) (nyc : List NycRow) (leed : LeedRow) :
    Except Unit BState :=
  match tier4 nyc (cleanS leed.address_norm) (cleanS leed.zip_norm)
      (cleanS leed.borough_norm) cfg.fuzzy_address_threshold
      (prefixState nyc (cleanS leed.bbl_norm) (cleanS leed.bin_norm)
        (cleanS leed.address_norm) (cleanS leed.zip_norm)
        (cleanS leed.borough_norm)) with
  | Except.error e => Except.error e
  | Except.ok s5 =>
    tier5 nyc (cleanS leed.building_name_norm) (cleanS leed.zip_norm)
      (cleanS leed.borough_norm) cfg.fuzzy_name_threshold s5

/-- One row of `matched_df`. -/
structure MatchRow where
  leed_source_id : String
  nyc_index : Nat
  match_confidence : Int
  match_method : String
  match_notes : String
deriving DecidableEq

/-- One row of `unmatched_df` (these reach the caller only through the
review queue). -/
structure URow where
  leed_source_id : String
  building_name_raw : String
  address_raw : String
  zip : String
  match_confidence : Int
  match_method : String
  match_notes : String
deriving DecidableEq

/-- The matcher's verdict on one LEED record. -/
inductive MOutcome where
  | matched (m : MatchRow)
  | unmatched (u : URow)
deriving DecidableEq

/-- Match one LEED record: a matched row when a best match was found,
otherwise the unmatched row with confidence 0 and method `none`. -/
def matchOne (cfg : MatchCfg) (nyc : List NycRow) (leed : LeedRow) :
    Except Unit MOutcome :=
  match matchState cfg nyc leed with
  | Except.error e => Except.error e
  | Except.ok s =>
    match s.idx with
    | some i =>
      Except.ok (MOutcome.matched ⟨leed.source_id, i, s.conf, s.meth, s.note⟩)
    | none =>
      Except.ok (MOutcome.unmatched
        ⟨leed.source_id, leed.building_name_raw, leed.address_raw, leed.zip,
          0, "none", "No match found"⟩)

/-- Run the matcher over every LEED record in table order. -/
def runAll (cfg : MatchCfg) (nyc : List NycRow) :
    List LeedRow → Except Unit (List MOutcome)
  | [] => Except.ok []
  | l :: ls =>
    match matchOne cfg nyc l with
    | Except.error e => Except.error e
    | Except.ok o =>
      match runAll cfg nyc ls with
      | Except.error e => Except.error e
      | Except.ok os => Except.ok (o :: os)

/-- The matched rows among the outcomes (`matched_df`). -/
def matchedOf (os : List MOutcome) : List MatchRow :=
  os.filterMap (fun o =>
    match o with
    | MOutcome.matched m => some m
    | MOutcome.unmatched _ => none)

/-- The unmatched rows among the outcomes (`unmatched_df`). -/
def unmatchedOf (os : List MOutcome) : List URow :=
  os.filterMap (fun o =>
    match o with
    | MOutcome.matched _ => none
    | MOutcome.unmatched u => some u)

/-- The review queue: matched rows below `min_confidence`, then all
unmatched rows (`pd.concat` keeps this order). -/
def reviewOf (mc : Int) (os : List MOutcome) : List (MatchRow ⊕ URow) :=
  ((matchedOf os).filter (fun m => m.match_confidence < mc)).map Sum.inl ++
    (unmatchedOf os).map Sum.inr

/-- `match_buildings`: returns `(matched_df, review_queue)`. -/
def matchBuildings (cfg : MatchCfg) (leeds : List LeedRow)
    (nyc : List NycRow) :
    Except Unit (List MatchRow × List (MatchRow ⊕ URow)) :=
  match runAll cfg nyc leeds with
  | Except.error e => Except.error e
  | Except.ok os => Except.ok (matchedOf os, reviewOf cfg.min_confidence os)

/-! ## Manual override applier (`apply_manual_mapping`) -/

/-- A row of the matched set as the override applier sees it: the
matcher's columns plus `nyc_source_id`, which overrides may set
(pandas creates the column on first assignment; unset cells are NaN,
modelled as `none`). -/
structure MRow where
  leed_source_id : String
  nyc_index : Option Nat
  nyc_source_id : Option String
  match_confidence : Int
  match_method : String
  match_notes : String
deriving DecidableEq

/-- Matcher output as override-applier input. -/
def toMRow (m : MatchRow) : MRow :=
  ⟨m.leed_source_id, some m.nyc_index, none, m.match_confidence,
    m.match_method, m.match_notes⟩

/-- One manual mapping decision (a CSV row).  The decision is kept as a
raw string: the source compares it against `"reject"` and `"match"` and
silently ignores anything else (including `"skip"`). -/
structure MDecision where
  leed_source_id : String
  nyc_source_id : String
  decision : String
  notes : String
deriving DecidableEq

/-- Replay one decision onto the matched rows, exactly as the source's
loop body: `reject` drops every row with that LEED id; `match` updates
every existing row with that id (sets target id, confidence 100, method
`manual_review`, notes) or appends a fresh row when none exists; any
other decision string mutates nothing. -/
def applyDecision (rows : List MRow) (d : MDecision) : List MRow :=
  if d.decision = "reject" then
    rows.filter (fun r => r.leed_source_id ≠ d.leed_source_id)
  else if d.decision = "match" then
    if rows.any (fun r => r.leed_source_id = d.leed_source_id) then
      rows.map (fun r =>
        if r.leed_source_id = d.leed_source_id then
          { r with
            nyc_source_id := some d.nyc_source_id
            match_confidence := 100
            match_method := "manual_review"
            match_notes := d.notes }
        else r)
    else
      rows ++ [⟨d.leed_source_id, none, some d.nyc_source_id, 100,
        "manual_review", d.notes⟩]
  else rows

/-- Replay a decision list in input order. -/
def applyDecisions (rows : List MRow) (ds : List MDecision) : List MRow :=
  ds.foldl applyDecision rows

/-- Outcome of `pd.read_csv` on the override file, passed as an oracle
(the filesystem is outside the embedding): a parsed decision list, a
`FileNotFoundError`, or any other parse failure (e.g.
`pandas.errors.ParserError` on a malformed file). -/
inductive CsvRead where
  | ok (rows : List MDecision)
  | fileNotFound
  | parseFailure
deriving DecidableEq

/-- `apply_manual_mapping`: a falsy path is a no-op; `FileNotFoundError`
is caught, logged and a no-op; any other exception from `read_csv` is
NOT caught by the source and propagates (`Except.error`); otherwise the
decisions are replayed in order. -/
def apply_manual_mapping (path : Option String) (read : CsvRead)
    (matched : List MRow) : Except Unit (List MRow) :=
  match path with
  | none => Except.ok matched
  | some _ =>
    match read with
    | CsvRead.fileNotFound => Except.ok matched
    | CsvRead.parseFailure => Except.error ()
    | CsvRead.ok ds => Except.ok (applyDecisions matched ds)

/-! ## Master table builder (`build_master_table`) -/

/-- A DataFrame cell: string, integer, or the NaN / None sentinel. -/
inductive Val where
  | vStr (s : String)
  | vInt (n : Int)
  | vNone
deriving DecidableEq

/-- Read a cell (a column a table owns is present in each of its rows;
a missing entry is the NaN sentinel). -/
def rowGet (r : List (String × Val)) (c : String) : Val :=
  match r.find? (fun p => p.1 = c) with
  | some p => p.2
  | none => Val.vNone

/-- Write a cell, replacing an existing entry or appending. -/
def rowSet (r : List (String × Val)) (c : String) (v : Val) :
    List (String × Val) :=
  if (r.find? (fun p => p.1 = c)).isSome then
    r.map (fun p => if p.1 = c then (c, v) else p)
  else r ++ [(c, v)]

/-- A DataFrame: a column list and assoc-list rows. -/
structure Table where
  cols : List String
  rows : List (List (String × Val))
deriving DecidableEq

/-- `pd.DataFrame()` (no columns, no rows). -/
def emptyTable : Table := ⟨[], []⟩

/-- `master[c] = master.apply(f)`: per-row column assignment (pandas
adds the column when absent). -/
def setCol (t : Table) (c : String) (f : List (String × Val) → Val) :
    Table :=
  ⟨if t.cols.contains c then t.cols else t.cols ++ [c],
    t.rows.map (fun r => rowSet r c (f r))⟩

/-- First row of `t` whose `keyCol` cell equals `key` (pandas index
lookup by value; like pandas, values of different types never
compare equal). -/
def tableLookup (t : Table) (keyCol : String) (key : Val) :
    Option (List (String × Val)) :=
  t.rows.find? (fun r => rowGet r keyCol = key)

/-- The LEED columns `build_master_table` carries over. -/
def LEED_JOIN_COLS : List String :=
  ["building_name_raw", "address_raw", "address_norm", "zip",
   "leed_level", "leed_cert_year", "city", "source_name",
   "lat", "lon", "project_type", "leed_version", "gross_sqft"]

/-- `master[col] = master["leed_source_id"].map(leed_indexed[col])` for
each carried LEED column present in the LEED table. -/
def leedJoin (leed : Table) (master : Table) : Table :=
  LEED_JOIN_COLS.foldl (fun m col =>
    if leed.cols.contains col then
      setCol m col (fun r =>
        match tableLookup leed "source_id" (rowGet r "leed_source_id") with
        | some lr => rowGet lr col
        | none => Val.vNone)
    else m) master

/-- The (source column, destination column) pairs of the grades join. -/
def GRADES_PAIRS : List (String × String) :=
  [("energy_grade", "energy_grade"), ("energy_star_score", "energy_star_score"),
   ("site_eui", "site_eui"), ("bbl", "bbl"), ("bbl_norm", "bbl_norm"),
   ("borough_norm", "borough"), ("address_raw", "nyc_address"),
   ("source_id", "nyc_grades_source_id")]

/-- The NYC-grades join: positional lookup through `nyc_index`
(`nyc_grades_df.at[i, c] if i in nyc_grades_df.index else None`). -/
def gradesJoin (grades : Table) (master : Table) : Table :=
  if master.cols.contains "nyc_index" ∧ grades.rows ≠ [] then
    GRADES_PAIRS.foldl (fun m pair =>
      if grades.cols.contains pair.1 then
        setCol m pair.2 (fun r =>
          match rowGet r "nyc_index" with
          | Val.vInt i =>
            if 0 ≤ i then
              match grades.rows.get? i.toNat with
              | some gr => rowGet gr pair.1
              | none => Val.vNone
            else Val.vNone
          | _ => Val.vNone)
      else m) master
  else master

/-- Keep the first row for each distinct value of the key column
(`drop_duplicates(subset=[key])`). -/
def dedupBy (key : String) : List Val → List (List (String × Val)) →
    List (List (String × Val))
  | _, [] => []
  | seen, r :: rs =>
    let k := rowGet r key
    if seen.contains k then dedupBy key seen rs
    else r :: dedupBy key (k :: seen) rs

/-- `master["bbl"].astype(str).replace({"nan": "", "None": ""})` for one
row: stringify the cell as Python would and blank the NaN markers. -/
def masterBblStr (r : List (String × Val)) : String :=
  let s :=
    match rowGet r "bbl" with
    | Val.vStr t => t
    | Val.vInt n => toString n
    | Val.vNone => "nan"
  if s = "nan" ∨ s = "None" then "" else s

/-- Columns of the LL97 join. -/
def LL97_COLS : List String :=
  ["bbl", "ghg_emissions_tco2e", "ll97_limit_tco2e", "ll97_overage_tco2e"]

/-- The LL97 join by BBL (deduplicated first, first occurrence wins). -/
def ll97Join (ll97 : Table) (master : Table) : Table :=
  if ll97.rows ≠ [] ∧ master.cols.contains "bbl" then
    let available := LL97_COLS.filter (fun c => ll97.cols.contains c)
    if available.contains "bbl" then
      let lookup := dedupBy "bbl" [] ll97.rows
      (available.filter (fun c => c ≠ "bbl")).foldl (fun m col =>
        setCol m col (fun r =>
          match lookup.find? (fun lr =>
              rowGet lr "bbl" = Val.vStr (masterBblStr r)) with
          | some lr => rowGet lr col
          | none => Val.vNone)) master
    else master
  else master

/-- Columns of the benchmarking fallback join. -/
def BENCH_COLS : List String :=
  ["bbl", "ghg_emissions_tco2e", "site_eui"]

/-- The benchmarking join by BBL: only fills a column that is absent or
entirely NaN after the LL97 join. -/
def benchJoin (bench : Table) (master : Table) : Table :=
  if bench.rows ≠ [] ∧ master.cols.contains "bbl" then
    let avail := BENCH_COLS.filter (fun c => bench.cols.contains c)
    if avail.contains "bbl" ∧ avail.length > 1 then
      let lookup := dedupBy "bbl" [] bench.rows
      (avail.filter (fun c => c ≠ "bbl")).foldl (fun m col =>
        if ¬ m.cols.contains col ∨
            m.rows.all (fun r => rowGet r col = Val.vNone) then
          setCol m col (fun r =>
            match lookup.find? (fun lr =>
                rowGet lr "bbl" = Val.vStr (masterBblStr r)) with
            | some lr => rowGet lr col
            | none => Val.vNone)
        else m) master
    else master
  else master

/-- The fixed output contract of the master table. -/
def CONTRACT_COLS : List String :=
  ["source_id", "source_name", "building_name_raw", "address_raw",
   "address_norm", "bbl", "bin", "borough", "zip",
   "leed_level", "leed_cert_year", "energy_grade", "energy_star_score",
   "site_eui", "ghg_emissions_tco2e", "ll97_limit_tco2e",
   "ll97_overage_tco2e", "match_confidence", "match_method", "match_notes"]

/-- `for col in contract: if col not in master.columns: master[col] = None`. -/
def contractFill (master : Table) : Table :=
  CONTRACT_COLS.foldl (fun m col =>
    if ¬ m.cols.contains col then setCol m col (fun _ => Val.vNone) else m)
    master

/-- The matched set as the initial master table. -/
def mrowToRow (m : MRow) : List (String × Val) :=
  [("leed_source_id", Val.vStr m.leed_source_id),
   ("nyc_index",
     match m.nyc_index with
     | some i => Val.vInt i
     | none => Val.vNone),
   ("nyc_source_id",
     match m.nyc_source_id with
     | some s => Val.vStr s
     | none => Val.vNone),
   ("match_confidence", Val.vInt m.match_confidence),
   ("match_method", Val.vStr m.match_method),
   ("match_notes", Val.vStr m.match_notes)]

/-- Columns of the matched set. -/
def MROW_COLS : List String :=
  ["leed_source_id", "nyc_index", "nyc_source_id",
   "match_confidence", "match_method", "match_notes"]

/-- `build_master_table`: empty matched set short-circuits to an empty
frame with no columns; otherwise joins are applied in the source's
order, the contract columns are backfilled with the null sentinel, and
`source_id` is overwritten with the LEED id of each row. -/
def build_master_table (leed grades bench ll97 : Table)
    (matched : List MRow) : Table :=
  if matched = [] then emptyTable
  else
    let master : Table := ⟨MROW_COLS, matched.map mrowToRow⟩
    let master := leedJoin leed master
    let master := gradesJoin grades master
    let master := ll97Join ll97 master
    let master := benchJoin bench master
    let master := contractFill master
    setCol master "source_id" (fun r => rowGet r "leed_source_id")

/-! ## Claims -/

/-- The digit string `normalize_zip` works from: digits of the part of
the stripped input before any hyphen and before any decimal point. -/
def zipDigits (raw : String) : String :=
  keepDigits (beforeFirst '.' (beforeFirst '-' (pyStrip raw)))

/-- C8: postal-code normalization case analysis.  For every input, with
`d` the retained digit string: exactly 5 digits are returned as-is, a
longer string is truncated to its first 5 digits, a shorter non-empty
string is left-padded with zeros to 5, and no digits (in particular the
empty input) give the empty string — never an all-zero code.  The
spec's concrete scenarios `"1023" → "01023"` and
`"10023-1234" → "10023"` hold. -/
theorem c8_normalize_zip_cases :
    (∀ raw : String, raw ≠ "" →
      ((zipDigits raw).data.length = 5 →
        normalize_zip raw = zipDigits raw) ∧
      ((zipDigits raw).data.length > 5 →
        normalize_zip raw = ⟨(zipDigits raw).data.take 5⟩) ∧
      (zipDigits raw ≠ "" → (zipDigits raw).data.length < 5 →
        normalize_zip raw = zfill 5 (zipDigits raw)) ∧
      (zipDigits raw = "" → normalize_zip raw = "")) ∧
    normalize_zip "" = "" ∧
    normalize_zip "1023" = "01023" ∧
    normalize_zip "10023-1234" = "10023" := by
  refine ⟨?_, by decide, by decide, by decide⟩
  intro raw hraw
  unfold normalize_zip
  rw [if_neg hraw]
  show ((zipDigits raw).data.length = 5 → _) ∧ _
  refine ⟨?_, ?_, ?_, ?_⟩
  · intro h5
    simp only [zipDigits] at h5 ⊢
    rw [if_pos h5]
  · intro hgt
    simp only [zipDigits] at hgt ⊢
    rw [if_neg (by omega), if_pos hgt]
  · intro hne hlt
    simp only [zipDigits] at hne hlt ⊢
    rw [if_neg (by omega), if_neg (by omega), if_pos hne]
  · intro hz
    simp only [zipDigits] at hz ⊢
    rw [hz]
    decide

/-- Witness for C8 at the concrete input `"7"`: a one-digit string is
left-padded to `"00007"`. -/
theorem c8_normalize_zip_cases_witness : normalize_zip "7" = "00007" := by
  have h := (c8_normalize_zip_cases.1 "7" (by decide)).2.2.1 (by decide) (by decide)
  rw [h]
  decide

/-- C1: `normalize_address` is NOT idempotent.  On `"123 41ST STREET"`
one application yields `"123 41 ST"` (the ordinal `41ST` loses its
ending, `STREET` is standardized to `ST`), but a second application
re-fires the ordinal pattern `(\d+)\s*(st|nd|rd|th)\b` on `"41 ST"`
and swallows the street suffix, yielding `"123 41"`. -/
theorem c1_normalize_address_not_idempotent :
    normalize_address "123 41ST STREET" = "123 41 ST" ∧
    normalize_address (normalize_address "123 41ST STREET") = "123 41" ∧
    normalize_address (normalize_address "123 41ST STREET") ≠
      normalize_address "123 41ST STREET" := by
  refine ⟨by decide, ?_, ?_⟩ <;> decide

/-- C3: in the exact-address tier, a later unqualified address match
DOES replace an earlier one when the earlier one is row 0, because the
source tests `not best_match` and the integer row position `0` is falsy
in Python.  Rows 0 and 1 both carry the address `1 A` with a borough
that does not match the LEED record's; the scan first records row 0 at
confidence 85, then the test `not best_match` succeeds (`not 0` is
true) and row 1 replaces it — the result points at row 1, not at the
first match in scan order.  When the first match is at a non-zero row
(second conjunct: rows 1 and 2 match), the first match correctly
wins. -/
theorem c3_exact_address_first_match_bug :
    matchOne defaultCfg
      [⟨"", "", "1 A", "", "", "BRONX"⟩, ⟨"", "", "1 A", "", "", "BRONX"⟩]
      ⟨"L1", "", "", "1 A", "", "", "QUEENS", "", "", ""⟩ =
      Except.ok (MOutcome.matched
        ⟨"L1", 1, 85, "exact_address_no_zip", "addr=1 A"⟩) ∧
    matchOne defaultCfg
      [⟨"", "", "9 B", "", "", "BRONX"⟩, ⟨"", "", "1 A", "", "", "BRONX"⟩,
       ⟨"", "", "1 A", "", "", "BRONX"⟩]
      ⟨"L1", "", "", "1 A", "", "", "QUEENS", "", "", ""⟩ =
      Except.ok (MOutcome.matched
        ⟨"L1", 1, 85, "exact_address_no_zip", "addr=1 A"⟩) := by
  constructor <;> decide

/-- C5 counterexample: a malformed override file (a `read_csv` parse
failure other than `FileNotFoundError`) is NOT caught — the error
propagates to the caller instead of returning the matched set
unchanged, contrary to the claim. -/
theorem c5_malformed_override_counterexample :
    apply_manual_mapping (some "data/manual_mapping.csv")
      CsvRead.parseFailure
      [⟨"L1", some 0, none, 90, "exact_address", "addr=1 A, zip=10001"⟩] =
      Except.error () := by decide

/-- C5 amended: a falsy (absent) path and a missing file are no-ops
that return the matched set unchanged without raising; a malformed
file's parse error is not handled and propagates to the caller. -/
theorem c5_override_absence_amended :
    ∀ (matched : List MRow) (p : String) (read : CsvRead),
      apply_manual_mapping none read matched = Except.ok matched ∧
      apply_manual_mapping (some p) CsvRead.fileNotFound matched =
        Except.ok matched ∧
      apply_manual_mapping (some p) CsvRead.parseFailure matched =
        Except.error () := by
  intro matched p read
  exact ⟨rfl, rfl, rfl⟩

/-! ### Machinery: score order and `extractOne` -/

/-- Unfold `scoreLt` to the integer cross-multiplication inequality. -/
theorem scoreLt_iff (a b : Score) :
    scoreLt a b = true ↔ a.num * b.den < b.num * a.den := by
  simp [scoreLt]

/-- Similarity scores have positive denominators. -/
theorem ratioScore_den_pos (a b : String) : 0 < (ratioScore a b).den := by
  have hdef : ratioScore a b =
      if a.data.length + b.data.length = 0 then ⟨100, 1⟩
      else ⟨(200 * lcsLen a.data b.data : Nat),
        ((a.data.length + b.data.length : Nat) : Int)⟩ := rfl
  rw [hdef]
  by_cases h : a.data.length + b.data.length = 0
  · rw [if_pos h]
    decide
  · rw [if_neg h]
    show (0 : Int) < ((a.data.length + b.data.length : Nat) : Int)
    omega

/-- `scoreLt` is irreflexive. -/
theorem scoreLt_self (s : Score) : scoreLt s s = false := by
  rw [← Bool.not_eq_true, scoreLt_iff]
  exact lt_irrefl _

/-- `tokenSortScore` inherits the positive denominator. -/
theorem tokenSortScore_den_pos (q t : String) :
    0 < (tokenSortScore q t).den := by
  unfold tokenSortScore
  exact ratioScore_den_pos _ _

/-- Order glue: if `q < cut ≤ s` (with positive denominators) then
`¬ s < q`. -/
theorem score_not_lt_of_cut (q cut s : Score)
    (hq : 0 < q.den) (hc : 0 < cut.den) (hs : 0 < s.den)
    (h1 : scoreLt q cut = true) (h2 : scoreLt s cut = false) :
    scoreLt s q = false := by
  rw [scoreLt_iff] at h1
  rw [← Bool.not_eq_true, scoreLt_iff] at h2 ⊢
  push_neg at h2 ⊢
  nlinarith

/-- Order glue: if `q ≤ bs < s` (with positive denominators) then
`¬ s < q`. -/
theorem score_not_lt_of_best (q bs s : Score)
    (hq : 0 < q.den) (hb : 0 < bs.den) (hs : 0 < s.den)
    (h1 : scoreLt bs q = false) (h2 : scoreLt bs s = true) :
    scoreLt s q = false := by
  rw [scoreLt_iff] at h2
  rw [← Bool.not_eq_true, scoreLt_iff] at h1 ⊢
  push_neg at h1 ⊢
  nlinarith

/-- Invariant carried by the `extractOne` fold over the processed
prefix of the candidate list. -/
def ExtractInv (q : String) (cutoff : Score)
    (processed : List (Nat × String)) :
    Option (String × Score × Nat) → Prop
  | none => ∀ p ∈ processed, scoreLt (tokenSortScore q p.2) cutoff = true
  | some (t, s, i) =>
    (i, t) ∈ processed ∧ s = tokenSortScore q t ∧
    scoreLt s cutoff = false ∧
    ∀ p ∈ processed, scoreLt s (tokenSortScore q p.2) = false

/-- The fold of `extractOne` preserves the invariant. -/
theorem extractBest_inv (q : String) (cutoff : Score)
    (hc : 0 < cutoff.den) :
    ∀ (cands processed : List (Nat × String))
      (acc : Option (String × Score × Nat)),
      ExtractInv q cutoff processed acc →
      ExtractInv q cutoff (processed ++ cands)
        (extractBest q cutoff cands acc) := by
  intro cands
  induction cands with
  | nil =>
    intro processed acc h
    simpa [extractBest] using h
  | cons hd tl ih =>
    intro processed acc h
    obtain ⟨i, t⟩ := hd
    have hstep :
        ∀ acc', ExtractInv q cutoff (processed ++ [(i, t)]) acc' →
          ExtractInv q cutoff ((processed ++ [(i, t)]) ++ tl)
            (extractBest q cutoff tl acc') := ih (processed ++ [(i, t)])
    have hrw : (processed ++ [(i, t)]) ++ tl = processed ++ (i, t) :: tl := by
      simp
    by_cases hlt : scoreLt (tokenSortScore q t) cutoff = true
    · have h1 : ExtractInv q cutoff (processed ++ [(i, t)]) acc := by
        cases acc with
        | none =>
          intro p hp
          rcases List.mem_append.mp hp with hp | hp
          · exact h p hp
          · rcases List.mem_singleton.mp hp with rfl
            exact hlt
        | some v =>
          obtain ⟨tb, sb, ib⟩ := v
          obtain ⟨hmem, hsb, hcut, hmax⟩ := h
          refine ⟨List.mem_append_left _ hmem, hsb, hcut, ?_⟩
          intro p hp
          rcases List.mem_append.mp hp with hp | hp
          · exact hmax p hp
          · rcases List.mem_singleton.mp hp with rfl
            exact score_not_lt_of_cut _ _ _
              (tokenSortScore_den_pos q _) hc
              (hsb ▸ tokenSortScore_den_pos q _) hlt hcut
      have h2 := hstep acc h1
      rw [hrw] at h2
      simpa [extractBest, hlt] using h2
    · have hlt' : scoreLt (tokenSortScore q t) cutoff = false := by
        simpa using hlt
      cases acc with
      | none =>
        have h1 : ExtractInv q cutoff (processed ++ [(i, t)])
            (some (t, tokenSortScore q t, i)) := by
          refine ⟨List.mem_append_right _ (List.mem_singleton.mpr rfl),
            rfl, hlt', ?_⟩
          intro p hp
          rcases List.mem_append.mp hp with hp | hp
          · exact score_not_lt_of_cut _ _ _
              (tokenSortScore_den_pos q _) hc (tokenSortScore_den_pos q _)
              (h p hp) hlt'
          · rcases List.mem_singleton.mp hp with rfl
            exact scoreLt_self _
        have h2 := hstep _ h1
        rw [hrw] at h2
        simpa [extractBest, hlt'] using h2
      | some v =>
        obtain ⟨tb, sb, ib⟩ := v
        obtain ⟨hmem, hsb, hcut, hmax⟩ := h
        by_cases hbetter : scoreLt sb (tokenSortScore q t) = true
        · have h1 : ExtractInv q cutoff (processed ++ [(i, t)])
              (some (t, tokenSortScore q t, i)) := by
            refine ⟨List.mem_append_right _ (List.mem_singleton.mpr rfl),
              rfl, hlt', ?_⟩
            intro p hp
            rcases List.mem_append.mp hp with hp | hp
            · exact score_not_lt_of_best _ _ _
                (tokenSortScore_den_pos q _)
                (hsb ▸ tokenSortScore_den_pos q _)
                (tokenSortScore_den_pos q _) (hmax p hp) hbetter
            · rcases List.mem_singleton.mp hp with rfl
              exact scoreLt_self _
          have h2 := hstep _ h1
          rw [hrw] at h2
          simpa [extractBest, hlt', hbetter] using h2
        · have hbetter' : scoreLt sb (tokenSortScore q t) = false := by
            simpa using hbetter
          have h1 : ExtractInv q cutoff (processed ++ [(i, t)])
              (some (tb, sb, ib)) := by
            refine ⟨List.mem_append_left _ hmem, hsb, hcut, ?_⟩
            intro p hp
            rcases List.mem_append.mp hp with hp | hp
            · exact hmax p hp
            · rcases List.mem_singleton.mp hp with rfl
              exact hbetter'
          have h2 := hstep _ h1
          rw [hrw] at h2
          simpa [extractBest, hlt', hbetter'] using h2

/-- Specification of `extractOne`: a returned triple is a candidate at
or above the cutoff, carries its own token-sort score, and its score is
maximal among all candidates. -/
theorem extractOne_spec (q : String) (cands : List (Nat × String))
    (cutoff : Score) (hc : 0 < cutoff.den) (t : String) (s : Score)
    (i : Nat) (h : extractOne q cands cutoff = some (t, s, i)) :
    (i, t) ∈ cands ∧ s = tokenSortScore q t ∧
    scoreLt s cutoff = false ∧
    ∀ p ∈ cands, scoreLt s (tokenSortScore q p.2) = false := by
  have h0 : ExtractInv q cutoff ([] : List (Nat × String)) none := by
    intro p hp
    cases hp
  have h1 := extractBest_inv q cutoff hc cands [] none h0
  rw [show extractOne q cands cutoff = extractBest q cutoff cands none
    from rfl] at h
  rw [h] at h1
  simpa [ExtractInv] using h1

/-! ### Machinery: tier specifications -/

/-- With a threshold strictly below 100 the fuzzy confidence
computation cannot divide by zero. -/
theorem fuzzyConf_eq_ok (base cap t : Int) (score : Score) (h : t < 100) :
    fuzzyConf base cap t score = Except.ok (min cap (max base (pyIntFrac
      (base * (100 - t) * score.den + (score.num - t * score.den) * 19)
      ((100 - t) * score.den)))) := by
  unfold fuzzyConf
  rw [if_neg (by omega)]

/-- A successful fuzzy confidence lies in the `[base, cap]` band. -/
theorem fuzzyConf_bounds (base cap t : Int) (score : Score) (c : Int)
    (hbc : base ≤ cap) (h : fuzzyConf base cap t score = Except.ok c) :
    base ≤ c ∧ c ≤ cap := by
  unfold fuzzyConf at h
  by_cases h0 : (100 : Int) - t = 0
  · rw [if_pos h0] at h
    cases h
  · rw [if_neg h0] at h
    injection h with h
    subst h
    constructor
    · exact le_min hbc (le_max_left _ _)
    · exact min_le_left _ _

/-- Case analysis of strategy 4: either the state passes through
unchanged, or the tier was attempted, `extractOne` found a best
candidate at or above the threshold, the confidence computation
succeeded and beat the current best, and the state became a
`fuzzy_address` match. -/
theorem tier4_spec (nyc : List NycRow) (laddr lzip lboro : String)
    (ta : Int) (s4 s5 : BState)
    (h : tier4 nyc laddr lzip lboro ta s4 = Except.ok s5) :
    s5 = s4 ∨
    (s4.conf < 80 ∧ laddr ≠ "" ∧ ∃ mstr sc i c,
      extractOne laddr (tier4cands nyc lzip lboro) (intScore ta) =
        some (mstr, sc, i) ∧
      fuzzyConf 70 89 ta sc = Except.ok c ∧ c > s4.conf ∧
      s5 = ⟨some i, c, "fuzzy_address",
        "score=" ++ fmtScore0 sc ++ ", addr=" ++ mstr⟩) := by
  unfold tier4 at h
  split at h
  · rename_i hcond
    dsimp only at h
    split at h
    · split at h
      · injection h with h
        exact Or.inl h.symm
      · rename_i mstr sc i heq
        split at h
        · cases h
        · rename_i c hconf
          injection h with h
          split at h
          · rename_i hgt
            exact Or.inr ⟨hcond.1, hcond.2, mstr, sc, i, c, heq, hconf,
              hgt, h.symm⟩
          · exact Or.inl h.symm
    · injection h with h
      exact Or.inl h.symm
  · injection h with h
    exact Or.inl h.symm

/-- Case analysis of strategy 5 (fuzzy name), symmetric to
`tier4_spec`. -/
theorem tier5_spec (nyc : List NycRow) (lname lzip lboro : String)
    (tn : Int) (s5 s6 : BState)
    (h : tier5 nyc lname lzip lboro tn s5 = Except.ok s6) :
    s6 = s5 ∨
    (s5.conf < 70 ∧ lname ≠ "" ∧ ∃ mstr sc i c,
      extractOne lname (tier5cands nyc lzip lboro) (intScore tn) =
        some (mstr, sc, i) ∧
      fuzzyConf 50 69 tn sc = Except.ok c ∧ c > s5.conf ∧
      s6 = ⟨some i, c, "fuzzy_name",
        "score=" ++ fmtScore0 sc ++ ", name=" ++ mstr⟩) := by
  unfold tier5 at h
  split at h
  · rename_i hcond
    dsimp only at h
    split at h
    · split at h
      · injection h with h
        exact Or.inl h.symm
      · rename_i mstr sc i heq
        split at h
        · cases h
        · rename_i c hconf
          injection h with h
          split at h
          · rename_i hgt
            exact Or.inr ⟨hcond.1, hcond.2, mstr, sc, i, c, heq, hconf,
              hgt, h.symm⟩
          · exact Or.inl h.symm
    · injection h with h
      exact Or.inl h.symm
  · injection h with h
    exact Or.inl h.symm

/-- Strategy 4 cannot fail when the address threshold is below 100. -/
theorem tier4_isOk (nyc : List NycRow) (laddr lzip lboro : String)
    (ta : Int) (s4 : BState) (h : ta < 100) :
    ∃ s5, tier4 nyc laddr lzip lboro ta s4 = Except.ok s5 := by
  unfold tier4
  split
  · dsimp only
    split
    · split
      · exact ⟨_, rfl⟩
      · rw [fuzzyConf_eq_ok _ _ _ _ h]
        exact ⟨_, rfl⟩
    · exact ⟨_, rfl⟩
  · exact ⟨_, rfl⟩

/-- Strategy 5 cannot fail when the name threshold is below 100. -/
theorem tier5_isOk (nyc : List NycRow) (lname lzip lboro : String)
    (tn : Int) (s5 : BState) (h : tn < 100) :
    ∃ s6, tier5 nyc lname lzip lboro tn s5 = Except.ok s6 := by
  unfold tier5
  split
  · dsimp only
    split
    · split
      · exact ⟨_, rfl⟩
      · rw [fuzzyConf_eq_ok _ _ _ _ h]
        exact ⟨_, rfl⟩
    · exact ⟨_, rfl⟩
  · exact ⟨_, rfl⟩

/-! ### Machinery: state invariants of the tier chain -/

/-- What the infallible tiers 1–3b can produce: the untouched initial
state, or one of the five exact methods with its fixed confidence. -/
def stPre (s : BState) : Prop :=
  s = ⟨none, 0, "", ""⟩ ∨
  (s.meth = "exact_bbl" ∧ s.conf = 100 ∧ s.idx.isSome = true) ∨
  (s.meth = "exact_bin" ∧ s.conf = 100 ∧ s.idx.isSome = true) ∨
  (s.meth = "exact_address" ∧ s.conf = 90 ∧ s.idx.isSome = true) ∨
  (s.meth = "exact_address_borough" ∧ s.conf = 88 ∧ s.idx.isSome = true) ∨
  (s.meth = "exact_address_no_zip" ∧ s.conf = 85 ∧ s.idx.isSome = true)

/-- What the whole chain can produce: a pre-state or one of the two
fuzzy bands. -/
def stBands (s : BState) : Prop :=
  stPre s ∨
  (s.meth = "fuzzy_address" ∧ 70 ≤ s.conf ∧ s.conf ≤ 89 ∧
    s.idx.isSome = true) ∨
  (s.meth = "fuzzy_name" ∧ 50 ≤ s.conf ∧ s.conf ≤ 69 ∧
    s.idx.isSome = true)

/-- Strategy 1 output shape. -/
theorem tier1_pre (nyc : List NycRow) (lbbl : String) (s : BState)
    (hs : stPre s) : stPre (tier1 nyc lbbl s) := by
  unfold tier1
  split
  · split
    · exact Or.inr (Or.inl ⟨rfl, rfl, rfl⟩)
    · exact hs
  · exact hs

/-- Strategy 2 output shape. -/
theorem tier2_pre (nyc : List NycRow) (lbin : String) (s : BState)
    (hs : stPre s) : stPre (tier2 nyc lbin s) := by
  unfold tier2
  split
  · split
    · exact Or.inr (Or.inr (Or.inl ⟨rfl, rfl, rfl⟩))
    · exact hs
  · exact hs

/-- Strategy 3 output shape. -/
theorem tier3_pre (nyc : List NycRow) (laddr lzip : String) (s : BState)
    (hs : stPre s) : stPre (tier3 nyc laddr lzip s) := by
  unfold tier3
  split
  · split
    · exact Or.inr (Or.inr (Or.inr (Or.inl ⟨rfl, rfl, rfl⟩)))
    · exact hs
  · exact hs

/-- The strategy-3b scan output shape. -/
theorem scan3b_pre (nyc : List NycRow) (laddr lboro : String) :
    ∀ (l : List (Nat × String × String × String)) (s : BState),
      stPre s → stPre (scan3b nyc laddr lboro l s) := by
  intro l
  induction l with
  | nil =>
    intro s hs
    exact hs
  | cons hd tl ih =>
    intro s hs
    obtain ⟨i, a, z, nm⟩ := hd
    unfold scan3b
    dsimp only
    split
    · split
      · exact Or.inr (Or.inr (Or.inr (Or.inr (Or.inl ⟨rfl, rfl, rfl⟩))))
      · split
        · exact ih _ (Or.inr (Or.inr (Or.inr (Or.inr (Or.inr
            ⟨rfl, rfl, rfl⟩)))))
        · exact ih _ hs
    · exact ih _ hs

/-- Strategy 3b output shape. -/
theorem tier3b_pre (nyc : List NycRow) (laddr lboro : String)
    (s : BState) (hs : stPre s) : stPre (tier3b nyc laddr lboro s) := by
  unfold tier3b
  split
  · exact scan3b_pre nyc laddr lboro _ s hs
  · exact hs

/-- The composed infallible prefix satisfies the pre-state shape. -/
theorem prefixState_pre (nyc : List NycRow)
    (lbbl lbin laddr lzip lboro : String) :
    stPre (prefixState nyc lbbl lbin laddr lzip lboro) := by
  unfold prefixState
  exact tier3b_pre _ _ _ _
    (tier3_pre _ _ _ _ (tier2_pre _ _ _ (tier1_pre _ _ _ (Or.inl rfl))))

/-- Strategy 4 preserves the band invariant. -/
theorem tier4_bands (nyc : List NycRow) (laddr lzip lboro : String)
    (ta : Int) (s4 s5 : BState)
    (h : tier4 nyc laddr lzip lboro ta s4 = Except.ok s5)
    (hs : stBands s4) : stBands s5 := by
  rcases tier4_spec nyc laddr lzip lboro ta s4 s5 h with heq | hfz
  · exact heq ▸ hs
  · obtain ⟨-, -, mstr, sc, i, c, -, hconf, -, hst⟩ := hfz
    have hb := fuzzyConf_bounds 70 89 ta sc c (by decide) hconf
    subst hst
    exact Or.inr (Or.inl ⟨rfl, hb.1, hb.2, rfl⟩)

/-- Strategy 5 preserves the band invariant. -/
theorem tier5_bands (nyc : List NycRow) (lname lzip lboro : String)
    (tn : Int) (s5 s6 : BState)
    (h : tier5 nyc lname lzip lboro tn s5 = Except.ok s6)
    (hs : stBands s5) : stBands s6 := by
  rcases tier5_spec nyc lname lzip lboro tn s5 s6 h with heq | hfz
  · exact heq ▸ hs
  · obtain ⟨-, -, mstr, sc, i, c, -, hconf, -, hst⟩ := hfz
    have hb := fuzzyConf_bounds 50 69 tn sc c (by decide) hconf
    subst hst
    exact Or.inr (Or.inr ⟨rfl, hb.1, hb.2, rfl⟩)

/-- Decompose a successful `matchState` run into its two fallible
stages. -/
theorem matchState_decomp (cfg : MatchCfg) (nyc : List NycRow)
    (leed : LeedRow) (s : BState)
    (h : matchState cfg nyc leed = Except.ok s) :
    ∃ s5,
      tier4 nyc (cleanS leed.address_norm) (cleanS leed.zip_norm)
        (cleanS leed.borough_norm) cfg.fuzzy_address_threshold
        (prefixState nyc (cleanS leed.bbl_norm) (cleanS leed.bin_norm)
          (cleanS leed.address_norm) (cleanS leed.zip_norm)
          (cleanS leed.borough_norm)) = Except.ok s5 ∧
      tier5 nyc (cleanS leed.building_name_norm) (cleanS leed.zip_norm)
        (cleanS leed.borough_norm) cfg.fuzzy_name_threshold s5 =
        Except.ok s := by
  unfold matchState at h
  split at h
  · cases h
  · rename_i s5 heq
    exact ⟨s5, heq, h⟩

/-- Any state a successful `matchState` run returns is in the bands. -/
theorem matchState_bands (cfg : MatchCfg) (nyc : List NycRow)
    (leed : LeedRow) (s : BState)
    (h : matchState cfg nyc leed = Except.ok s) : stBands s := by
  obtain ⟨s5, h4, h5⟩ := matchState_decomp cfg nyc leed s h
  exact tier5_bands _ _ _ _ _ _ _ h5
    (tier4_bands _ _ _ _ _ _ _ h4 (Or.inl (prefixState_pre _ _ _ _ _ _)))

/-- With both thresholds below 100 the matcher cannot fail on any
record. -/
theorem matchState_isOk (cfg : MatchCfg) (nyc : List NycRow)
    (leed : LeedRow) (ha : cfg.fuzzy_address_threshold < 100)
    (hn : cfg.fuzzy_name_threshold < 100) :
    ∃ s, matchState cfg nyc leed = Except.ok s := by
  unfold matchState
  obtain ⟨s5, h4⟩ := tier4_isOk nyc (cleanS leed.address_norm)
    (cleanS leed.zip_norm) (cleanS leed.borough_norm)
    cfg.fuzzy_address_threshold
    (prefixState nyc (cleanS leed.bbl_norm) (cleanS leed.bin_norm)
      (cleanS leed.address_norm) (cleanS leed.zip_norm)
      (cleanS leed.borough_norm)) ha
  rw [h4]
  exact tier5_isOk _ _ _ _ _ _ hn

/-! ### Machinery: lifting to `matchOne`, `runAll`, `matchBuildings` -/

/-- Decompose a successful `matchOne`: a matched row built from the
final best state (when it holds an index), else the fixed unmatched
row. -/
theorem matchOne_split (cfg : MatchCfg) (nyc : List NycRow)
    (leed : LeedRow) (o : MOutcome)
    (h : matchOne cfg nyc leed = Except.ok o) :
    (∃ s i, matchState cfg nyc leed = Except.ok s ∧ s.idx = some i ∧
      o = MOutcome.matched ⟨leed.source_id, i, s.conf, s.meth, s.note⟩) ∨
    (∃ s, matchState cfg nyc leed = Except.ok s ∧ s.idx = none ∧
      o = MOutcome.unmatched ⟨leed.source_id, leed.building_name_raw,
        leed.address_raw, leed.zip, 0, "none", "No match found"⟩) := by
  unfold matchOne at h
  split at h
  · cases h
  · rename_i s hs
    split at h
    · rename_i i hi
      injection h with h
      exact Or.inl ⟨s, i, hs, hi, h.symm⟩
    · rename_i hi
      injection h with h
      exact Or.inr ⟨s, hs, hi, h.symm⟩

/-- `matchOne` cannot fail when both thresholds are below 100. -/
theorem matchOne_isOk (cfg : MatchCfg) (nyc : List NycRow)
    (leed : LeedRow) (ha : cfg.fuzzy_address_threshold < 100)
    (hn : cfg.fuzzy_name_threshold < 100) :
    ∃ o, matchOne cfg nyc leed = Except.ok o := by
  obtain ⟨s, hs⟩ := matchState_isOk cfg nyc leed ha hn
  cases hidx : s.idx with
  | some i =>
    refine ⟨MOutcome.matched ⟨leed.source_id, i, s.conf, s.meth, s.note⟩, ?_⟩
    unfold matchOne
    rw [hs]
    dsimp only
    rw [hidx]
  | none =>
    refine ⟨MOutcome.unmatched ⟨leed.source_id, leed.building_name_raw,
      leed.address_raw, leed.zip, 0, "none", "No match found"⟩, ?_⟩
    unfold matchOne
    rw [hs]
    dsimp only
    rw [hidx]

/-- Unfolding equation of `runAll` on an empty list. -/
theorem runAll_nil (cfg : MatchCfg) (nyc : List NycRow) :
    runAll cfg nyc [] = Except.ok [] := rfl

/-- Unfolding equation of `runAll` on a cons. -/
theorem runAll_cons (cfg : MatchCfg) (nyc : List NycRow) (l : LeedRow)
    (ls : List LeedRow) :
    runAll cfg nyc (l :: ls) =
      match matchOne cfg nyc l with
      | Except.error e => Except.error e
      | Except.ok o =>
        match runAll cfg nyc ls with
        | Except.error e => Except.error e
        | Except.ok os => Except.ok (o :: os) := rfl

/-- `runAll` cannot fail when both thresholds are below 100. -/
theorem runAll_isOk (cfg : MatchCfg) (nyc : List NycRow)
    (ha : cfg.fuzzy_address_threshold < 100)
    (hn : cfg.fuzzy_name_threshold < 100) :
    ∀ leeds : List LeedRow, ∃ os, runAll cfg nyc leeds = Except.ok os := by
  intro leeds
  induction leeds with
  | nil => exact ⟨[], rfl⟩
  | cons l ls ih =>
    obtain ⟨o, ho⟩ := matchOne_isOk cfg nyc l ha hn
    obtain ⟨os, hos⟩ := ih
    refine ⟨o :: os, ?_⟩
    rw [runAll_cons, ho, hos]

/-- Every outcome in a successful run comes from `matchOne` on some
input record. -/
theorem runAll_mem (cfg : MatchCfg) (nyc : List NycRow) :
    ∀ (leeds : List LeedRow) (os : List MOutcome),
      runAll cfg nyc leeds = Except.ok os →
      ∀ o ∈ os, ∃ leed ∈ leeds, matchOne cfg nyc leed = Except.ok o := by
  intro leeds
  induction leeds with
  | nil =>
    intro os h o ho
    injection h with h
    subst h
    cases ho
  | cons l ls ih =>
    intro os h o ho
    rw [runAll_cons] at h
    split at h
    · cases h
    · rename_i o0 ho0
      split at h
      · cases h
      · rename_i os0 hos0
        injection h with h
        subst h
        rcases List.mem_cons.mp ho with rfl | ho
        · exact ⟨l, List.mem_cons_self _ _, ho0⟩
        · obtain ⟨leed, hl, hm⟩ := ih os0 hos0 o ho
          exact ⟨leed, List.mem_cons_of_mem _ hl, hm⟩

/-- `match_buildings` cannot fail when both thresholds are below 100. -/
theorem matchBuildings_isOk (cfg : MatchCfg) (leeds : List LeedRow)
    (nyc : List NycRow) (ha : cfg.fuzzy_address_threshold < 100)
    (hn : cfg.fuzzy_name_threshold < 100) :
    ∃ out, matchBuildings cfg leeds nyc = Except.ok out := by
  unfold matchBuildings
  obtain ⟨os, hos⟩ := runAll_isOk cfg nyc ha hn leeds
  rw [hos]
  exact ⟨_, rfl⟩

/-- Decompose a successful `matchBuildings`. -/
theorem matchBuildings_split (cfg : MatchCfg) (leeds : List LeedRow)
    (nyc : List NycRow) (out)
    (h : matchBuildings cfg leeds nyc = Except.ok out) :
    ∃ os, runAll cfg nyc leeds = Except.ok os ∧
      out = (matchedOf os, reviewOf cfg.min_confidence os) := by
  unfold matchBuildings at h
  split at h
  · cases h
  · rename_i os hos
    injection h with h
    exact ⟨os, hos, h.symm⟩

/-- Membership in `matchedOf`. -/
theorem matchedOf_mem (os : List MOutcome) (m : MatchRow)
    (h : m ∈ matchedOf os) : MOutcome.matched m ∈ os := by
  unfold matchedOf at h
  obtain ⟨o, ho, heq⟩ := List.mem_filterMap.mp h
  cases o with
  | matched m0 =>
    injection heq with heq
    subst heq
    exact ho
  | unmatched u => cases heq

/-- Membership in `unmatchedOf`. -/
theorem unmatchedOf_mem (os : List MOutcome) (u : URow)
    (h : u ∈ unmatchedOf os) : MOutcome.unmatched u ∈ os := by
  unfold unmatchedOf at h
  obtain ⟨o, ho, heq⟩ := List.mem_filterMap.mp h
  cases o with
  | matched m0 => cases heq
  | unmatched u0 =>
    injection heq with heq
    subst heq
    exact ho

/-- An `inr` entry of the review queue is an unmatched row. -/
theorem reviewOf_inr (mc : Int) (os : List MOutcome) (u : URow)
    (h : Sum.inr u ∈ reviewOf mc os) : u ∈ unmatchedOf os := by
  unfold reviewOf at h
  rcases List.mem_append.mp h with h | h
  · obtain ⟨m, -, heq⟩ := List.mem_map.mp h
    cases heq
  · obtain ⟨u0, hu0, heq⟩ := List.mem_map.mp h
    injection heq with heq
    subst heq
    exact hu0

/-- C9: the fuzzy confidence rescaling divides by `100 - threshold`.
First conjunct: with `fuzzy_address_threshold = 100` and a candidate in
the same zip whose address token-sorts to exactly the query (score
100 ≥ cutoff), the matcher raises a division-by-zero error.  Second
conjunct: whenever both thresholds are strictly below 100 the matcher
terminates without error on every input. -/
theorem c9_threshold_division :
    matchBuildings ⟨100, 75, 50⟩
      [⟨"L3", "", "", "B A", "10001", "", "", "", "", ""⟩]
      [⟨"", "", "A B", "10001", "", ""⟩] = Except.error () ∧
    ∀ (ta tn mc : Int) (leeds : List LeedRow) (nyc : List NycRow),
      ta < 100 → tn < 100 →
      ∃ out, matchBuildings ⟨ta, tn, mc⟩ leeds nyc = Except.ok out := by
  constructor
  · decide
  · intro ta tn mc leeds nyc ha hn
    exact matchBuildings_isOk ⟨ta, tn, mc⟩ leeds nyc ha hn

/-- Witness for C9 at the default thresholds on empty tables. -/
theorem c9_threshold_division_witness :
    ∃ out, matchBuildings ⟨80, 75, 50⟩ [] [] = Except.ok out :=
  c9_threshold_division.2 80 75 50 [] [] (by decide) (by decide)

/-- The confidence/method correspondence for one matched row. -/
theorem matched_row_bands (cfg : MatchCfg) (nyc : List NycRow)
    (leed : LeedRow) (m : MatchRow)
    (h : matchOne cfg nyc leed = Except.ok (MOutcome.matched m)) :
    m.match_method ∈ ["exact_bbl", "exact_bin", "exact_address",
      "exact_address_borough", "exact_address_no_zip",
      "fuzzy_address", "fuzzy_name"] ∧
    ((m.match_method = "exact_bbl" ∨ m.match_method = "exact_bin") →
      m.match_confidence = 100) ∧
    (m.match_method = "exact_address" → m.match_confidence = 90) ∧
    (m.match_method = "exact_address_borough" → m.match_confidence = 88) ∧
    (m.match_method = "exact_address_no_zip" → m.match_confidence = 85) ∧
    (m.match_method = "fuzzy_address" →
      70 ≤ m.match_confidence ∧ m.match_confidence ≤ 89) ∧
    (m.match_method = "fuzzy_name" →
      50 ≤ m.match_confidence ∧ m.match_confidence ≤ 69) := by
  rcases matchOne_split cfg nyc leed _ h with
    ⟨s, i, hs, hi, heq⟩ | ⟨s, hs, hi, heq⟩
  · injection heq with heq
    subst heq
    have hb := matchState_bands cfg nyc leed s hs
    dsimp only
    rcases hb with
      (hinit | ⟨hm, hcf, -⟩ | ⟨hm, hcf, -⟩ | ⟨hm, hcf, -⟩ |
        ⟨hm, hcf, -⟩ | ⟨hm, hcf, -⟩) | ⟨hm, h1, h2, -⟩ | ⟨hm, h1, h2, -⟩
    · rw [hinit] at hi
      cases hi
    · rw [hm, hcf]
      decide
    · rw [hm, hcf]
      decide
    · rw [hm, hcf]
      decide
    · rw [hm, hcf]
      decide
    · rw [hm, hcf]
      decide
    · rw [hm]
      exact ⟨by decide, fun h => absurd h (by decide),
        fun h => absurd h (by decide), fun h => absurd h (by decide),
        fun h => absurd h (by decide), fun _ => ⟨h1, h2⟩,
        fun h => absurd h (by decide)⟩
    · rw [hm]
      exact ⟨by decide, fun h => absurd h (by decide),
        fun h => absurd h (by decide), fun h => absurd h (by decide),
        fun h => absurd h (by decide), fun h => absurd h (by decide),
        fun _ => ⟨h1, h2⟩⟩
  · cases heq

/-- An unmatched outcome always carries confidence 0 and method
`none`. -/
theorem unmatched_row_shape (cfg : MatchCfg) (nyc : List NycRow)
    (leed : LeedRow) (u : URow)
    (h : matchOne cfg nyc leed = Except.ok (MOutcome.unmatched u)) :
    u.match_confidence = 0 ∧ u.match_method = "none" := by
  rcases matchOne_split cfg nyc leed _ h with
    ⟨s, i, hs, hi, heq⟩ | ⟨s, hs, hi, heq⟩
  · cases heq
  · injection heq with heq
    subst heq
    exact ⟨rfl, rfl⟩

/-- C7: per-method confidence bands of `match_buildings` results (the
spec's names `exact_parcel`, `exact_building_id`, `exact_address_zip`
are the source's `exact_bbl`, `exact_bin`, `exact_address`).  Every
matched row's method determines its confidence: 100 / 100 / 90 / 88 /
85 / [70, 89] / [50, 69], in that monotone order, and every unmatched
entry of the review queue has confidence 0 and method `none`. -/
theorem c7_confidence_bands (cfg : MatchCfg) (leeds : List LeedRow)
    (nyc : List NycRow) (out)
    (h : matchBuildings cfg leeds nyc = Except.ok out) :
    (∀ m ∈ out.1,
      m.match_method ∈ ["exact_bbl", "exact_bin", "exact_address",
        "exact_address_borough", "exact_address_no_zip",
        "fuzzy_address", "fuzzy_name"] ∧
      ((m.match_method = "exact_bbl" ∨ m.match_method = "exact_bin") →
        m.match_confidence = 100) ∧
      (m.match_method = "exact_address" → m.match_confidence = 90) ∧
      (m.match_method = "exact_address_borough" →
        m.match_confidence = 88) ∧
      (m.match_method = "exact_address_no_zip" →
        m.match_confidence = 85) ∧
      (m.match_method = "fuzzy_address" →
        70 ≤ m.match_confidence ∧ m.match_confidence ≤ 89) ∧
      (m.match_method = "fuzzy_name" →
        50 ≤ m.match_confidence ∧ m.match_confidence ≤ 69)) ∧
    (∀ e ∈ out.2, ∀ u : URow, e = Sum.inr u →
      u.match_confidence = 0 ∧ u.match_method = "none") ∧
    ((100 : Int) ≥ 90 ∧ (90 : Int) ≥ 88 ∧ (88 : Int) ≥ 85 ∧
      (85 : Int) ≥ 70 ∧ (70 : Int) > 69 ∧ (69 : Int) ≥ 50 ∧
      (50 : Int) > 0) := by
  obtain ⟨os, hos, hout⟩ := matchBuildings_split cfg leeds nyc out h
  subst hout
  refine ⟨?_, ?_, by decide⟩
  · intro m hm
    have hmem := matchedOf_mem os m hm
    obtain ⟨leed, -, hone⟩ := runAll_mem cfg nyc leeds os hos _ hmem
    exact matched_row_bands cfg nyc leed m hone
  · intro e he u hu
    subst hu
    have hmem := unmatchedOf_mem os u (reviewOf_inr _ os u he)
    obtain ⟨leed, -, hone⟩ := runAll_mem cfg nyc leeds os hos _ hmem
    exact unmatched_row_shape cfg nyc leed u hone

/-- Witness for C7 on a run that produces one exact-BBL match and one
unmatched record. -/
theorem c7_confidence_bands_witness :
    (⟨"L1", 0, 100, "exact_bbl", "BBL=1001234005"⟩ :
      MatchRow).match_confidence = 100 := by
  have h := c7_confidence_bands defaultCfg
    [⟨"L1", "1001234005", "", "", "", "", "", "", "", ""⟩,
     ⟨"L2", "", "", "", "", "", "", "", "", ""⟩]
    [⟨"1001234005", "", "", "", "", ""⟩]
    (([⟨"L1", 0, 100, "exact_bbl", "BBL=1001234005"⟩] : List MatchRow),
      ([Sum.inr ⟨"L2", "", "", "", 0, "none", "No match found"⟩] :
        List (MatchRow ⊕ URow)))
    (by decide)
  exact (h.1 ⟨"L1", 0, 100, "exact_bbl", "BBL=1001234005"⟩
    (List.Mem.head _)).2.1 (Or.inl rfl)

/-! ### Machinery: candidate pools and row positions -/

/-- Integer cutoffs have denominator 1. -/
theorem intScore_den_pos (t : Int) : 0 < (intScore t).den := by
  show (0 : Int) < 1
  decide

/-- Every entry of `nyc_addr_list` built from position `k` points at an
actual row whose cleaned address it carries, and that address is
non-empty. -/
theorem addrListFrom_mem (e : Nat × String × String × String) :
    ∀ (k : Nat) (nyc : List NycRow), e ∈ addrListFrom k nyc →
      ∃ j r, nyc.get? j = some r ∧ e.1 = k + j ∧
        e.2.1 = cleanS r.address_norm ∧ cleanS r.address_norm ≠ "" ∧
        e.2.2.1 = cleanS r.zip_norm ∧
        e.2.2.2 = cleanS r.building_name_norm := by
  intro k nyc
  induction nyc generalizing k with
  | nil =>
    intro h
    cases h
  | cons r rs ih =>
    intro h
    unfold addrListFrom at h
    dsimp only at h
    split at h
    · rename_i hne
      rcases List.mem_cons.mp h with rfl | h
      · exact ⟨0, r, rfl, by omega, rfl, hne, rfl, rfl⟩
      · obtain ⟨j, r0, hget, hidx, ha, hne0, hz, hn⟩ := ih (k + 1) h
        exact ⟨j + 1, r0, hget, by omega, ha, hne0, hz, hn⟩
    · obtain ⟨j, r0, hget, hidx, ha, hne0, hz, hn⟩ := ih (k + 1) h
      exact ⟨j + 1, r0, hget, by omega, ha, hne0, hz, hn⟩

/-- Specialization to `addrList` (positions start at 0). -/
theorem addrList_mem (nyc : List NycRow)
    (e : Nat × String × String × String) (h : e ∈ addrList nyc) :
    ∃ r, nyc.get? e.1 = some r ∧ e.2.1 = cleanS r.address_norm ∧
      cleanS r.address_norm ≠ "" ∧ e.2.2.1 = cleanS r.zip_norm ∧
      e.2.2.2 = cleanS r.building_name_norm := by
  obtain ⟨j, r, hget, hidx, ha, hne, hz, hn⟩ := addrListFrom_mem e 0 nyc h
  refine ⟨r, ?_, ha, hne, hz, hn⟩
  rw [hidx]
  simpa using hget

/-- `nyc_names` entries come from `nyc_addr_list`. -/
theorem namesList_sub (nyc : List NycRow)
    (e : Nat × String × String × String) (h : e ∈ namesList nyc) :
    e ∈ addrList nyc := by
  unfold namesList at h
  exact (List.mem_filter.mp h).1

/-- A fuzzy-name candidate's key is the position of a `nyc_names`
entry. -/
theorem tier5cands_mem (nyc : List NycRow) (lzip lboro : String)
    (i : Nat) (nm : String) (h : (i, nm) ∈ tier5cands nyc lzip lboro) :
    ∃ e ∈ namesList nyc, e.1 = i := by
  unfold tier5cands at h
  obtain ⟨e, he, heq⟩ := List.mem_filterMap.mp h
  refine ⟨e, he, ?_⟩
  obtain ⟨i0, a0, z0, nm0⟩ := e
  dsimp only at heq
  by_cases hnm : nm0 = ""
  · rw [if_pos hnm] at heq
    cases heq
  · rw [if_neg hnm] at heq
    by_cases hcond : ((if lzip ≠ "" then z0 == lzip else false) ||
        (if lboro ≠ "" then boroRaw nyc i0 == lboro else false)) = true
    · rw [if_pos hcond] at heq
      injection heq with heq2
      exact congrArg Prod.fst heq2
    · rw [if_neg hcond] at heq
      cases heq

/-- C10: a `fuzzy_name` match always points at a source-B row whose
cleaned normalized address is non-empty, because the name pool is
built only from `nyc_addr_list` (rows with a non-empty cleaned
address). -/
theorem c10_fuzzy_name_requires_address (cfg : MatchCfg)
    (nyc : List NycRow) (leed : LeedRow) (m : MatchRow)
    (h : matchOne cfg nyc leed = Except.ok (MOutcome.matched m))
    (hfm : m.match_method = "fuzzy_name") :
    ∃ r, nyc.get? m.nyc_index = some r ∧ cleanS r.address_norm ≠ "" := by
  rcases matchOne_split cfg nyc leed _ h with
    ⟨s, i, hs, hi, heq⟩ | ⟨s, hs, hi, heq⟩
  · injection heq with heq
    subst heq
    have hm : s.meth = "fuzzy_name" := hfm
    obtain ⟨s5, h4, h5⟩ := matchState_decomp cfg nyc leed s hs
    rcases tier5_spec _ _ _ _ _ _ _ h5 with rfl | hfz
    · exfalso
      rcases tier4_spec _ _ _ _ _ _ _ h4 with rfl | hfz4
      · rcases prefixState_pre nyc (cleanS leed.bbl_norm)
          (cleanS leed.bin_norm) (cleanS leed.address_norm)
          (cleanS leed.zip_norm) (cleanS leed.borough_norm) with
          hinit | ⟨hm0, -⟩ | ⟨hm0, -⟩ | ⟨hm0, -⟩ | ⟨hm0, -⟩ | ⟨hm0, -⟩
        · rw [hinit] at hm
          exact absurd hm (by decide)
        all_goals rw [hm0] at hm
        all_goals exact absurd hm (by decide)
      · obtain ⟨-, -, mstr, sc, i4, c, -, -, -, hst⟩ := hfz4
        rw [hst] at hm
        exact absurd (show ("fuzzy_address" : String) = "fuzzy_name" from hm)
          (by decide)
    · obtain ⟨-, -, mstr, sc, i5, c, hext, -, -, hst⟩ := hfz
      have hidx5 : s.idx = some i5 := by
        rw [hst]
      have hii : i = i5 := by
        rw [hidx5] at hi
        injection hi with hi
        exact hi.symm
      have hspec := extractOne_spec (cleanS leed.building_name_norm)
        (tier5cands nyc (cleanS leed.zip_norm) (cleanS leed.borough_norm))
        (intScore cfg.fuzzy_name_threshold) (intScore_den_pos _) mstr sc
        i5 hext
      obtain ⟨e, hemem, hei⟩ :=
        tier5cands_mem nyc _ _ i5 mstr hspec.1
      obtain ⟨r, hget, -, hne, -, -⟩ :=
        addrList_mem nyc e (namesList_sub nyc e hemem)
      refine ⟨r, ?_, hne⟩
      show nyc.get? i = some r
      rw [hii, ← hei]
      exact hget
  · cases heq

/-- Witness for C10: the fuzzy-name scenario from the spec resolves to
row 0, which indeed has a non-empty cleaned address (`"X"`). -/
theorem c10_fuzzy_name_requires_address_witness :
    ∃ r, ([⟨"", "", "X", "10001", "A T", ""⟩] : List NycRow).get? 0 =
      some r ∧ cleanS r.address_norm ≠ "" :=
  c10_fuzzy_name_requires_address defaultCfg
    [⟨"", "", "X", "10001", "A T", ""⟩]
    ⟨"L4", "", "", "", "10001", "T A", "", "", "", ""⟩
    ⟨"L4", 0, 69, "fuzzy_name", "score=100, name=A T"⟩
    (by decide) rfl

/-- Characterization of the fuzzy-address candidate pool: an entry of
`nyc_addr_list` qualifies when it shares the (non-empty) cleaned zip
with the LEED record, OR — when the zip test fails for any reason,
including both zips present but different — when the LEED record has a
borough and the candidate's cleaned borough equals it. -/
theorem tier4cands_mem_iff (nyc : List NycRow) (lzip lboro : String)
    (j : Nat) (b : String) :
    (j, b) ∈ tier4cands nyc lzip lboro ↔
    ∃ z nm, (j, b, z, nm) ∈ addrList nyc ∧
      ((lzip ≠ "" ∧ z ≠ "" ∧ lzip = z) ∨
       (¬(lzip ≠ "" ∧ z ≠ "" ∧ lzip = z) ∧ lboro ≠ "" ∧
         cleanS (boroRaw nyc j) = lboro)) := by
  unfold tier4cands
  constructor
  · intro h
    obtain ⟨e, he, heq⟩ := List.mem_filterMap.mp h
    obtain ⟨i0, a0, z0, nm0⟩ := e
    dsimp only at heq
    by_cases hz : lzip ≠ "" ∧ z0 ≠ "" ∧ lzip = z0
    · rw [if_pos hz] at heq
      injection heq with heq2
      have hi : i0 = j := congrArg Prod.fst heq2
      have ha : a0 = b := congrArg Prod.snd heq2
      subst hi
      subst ha
      exact ⟨z0, nm0, he, Or.inl hz⟩
    · rw [if_neg hz] at heq
      by_cases hb : lboro ≠ ""
      · rw [if_pos hb] at heq
        by_cases hq : cleanS (boroRaw nyc i0) = lboro
        · rw [if_pos hq] at heq
          injection heq with heq2
          have hi : i0 = j := congrArg Prod.fst heq2
          have ha : a0 = b := congrArg Prod.snd heq2
          subst hi
          subst ha
          exact ⟨z0, nm0, he, Or.inr ⟨hz, hb, hq⟩⟩
        · rw [if_neg hq] at heq
          cases heq
      · rw [if_neg hb] at heq
        cases heq
  · intro h
    obtain ⟨z, nm, hmem, hcond⟩ := h
    refine List.mem_filterMap.mpr ⟨(j, b, z, nm), hmem, ?_⟩
    dsimp only
    rcases hcond with hz | ⟨hnz, hb, hq⟩
    · rw [if_pos hz]
    · rw [if_neg hnz, if_pos hb, if_pos hq]

/-- C2 counterexample: the LEED record has the non-empty zip `10001`,
the only NYC row has the different zip `10002`, yet it enters the
fuzzy-address pool through the borough fallback (shared `QUEENS`) and
is selected as a `fuzzy_address` match (score 90 ≥ threshold 80,
confidence `int(70 + (90-80)·19/20) = 79`).  Under the claim's
candidate restriction ("sharing the normalized postal code when the
source-A record has one") the pool would have been empty. -/
theorem c2_fuzzy_candidates_counterexample :
    matchOne defaultCfg [⟨"", "", "AAAAAAAA C", "10002", "", "QUEENS"⟩]
        ⟨"L2", "", "", "AAAAAAAA B", "10001", "", "QUEENS", "", "", ""⟩ =
      Except.ok (MOutcome.matched
        ⟨"L2", 0, 79, "fuzzy_address", "score=90, addr=AAAAAAAA C"⟩) ∧
    cleanS "10001" ≠ "" ∧
    cleanS "10002" ≠ cleanS "10001" := by
  refine ⟨by decide, by decide, by decide⟩

/-- C2 amended: the fuzzy-address tier is attempted only with a
non-empty source-A address and best confidence below 80; its candidate
pool contains the source-B records sharing the cleaned zip (both
non-empty), PLUS — when the source-A record has a borough — the
records failing the zip test (different or missing zip) whose cleaned
borough matches; the selected record is a pool member with maximal
token-sort score at or above the threshold, and the confidence is the
claim's clamp formula with Python's integer truncation applied before
clamping. -/
theorem c2_fuzzy_address_tier_amended (cfg : MatchCfg)
    (nyc : List NycRow) (leed : LeedRow) (m : MatchRow)
    (hta : cfg.fuzzy_address_threshold < 100)
    (h : matchOne cfg nyc leed = Except.ok (MOutcome.matched m))
    (hfm : m.match_method = "fuzzy_address") :
    cleanS leed.address_norm ≠ "" ∧
    (prefixState nyc (cleanS leed.bbl_norm) (cleanS leed.bin_norm)
      (cleanS leed.address_norm) (cleanS leed.zip_norm)
      (cleanS leed.borough_norm)).conf < 80 ∧
    (∀ j b, (j, b) ∈ tier4cands nyc (cleanS leed.zip_norm)
        (cleanS leed.borough_norm) ↔
      ∃ z nm, (j, b, z, nm) ∈ addrList nyc ∧
        ((cleanS leed.zip_norm ≠ "" ∧ z ≠ "" ∧
            cleanS leed.zip_norm = z) ∨
         (¬(cleanS leed.zip_norm ≠ "" ∧ z ≠ "" ∧
             cleanS leed.zip_norm = z) ∧
           cleanS leed.borough_norm ≠ "" ∧
           cleanS (boroRaw nyc j) = cleanS leed.borough_norm))) ∧
    ∃ b z nm,
      (m.nyc_index, b, z, nm) ∈ addrList nyc ∧
      ((cleanS leed.zip_norm ≠ "" ∧ z ≠ "" ∧
          cleanS leed.zip_norm = z) ∨
       (¬(cleanS leed.zip_norm ≠ "" ∧ z ≠ "" ∧
           cleanS leed.zip_norm = z) ∧
         cleanS leed.borough_norm ≠ "" ∧
         cleanS (boroRaw nyc m.nyc_index) = cleanS leed.borough_norm)) ∧
      scoreLt (tokenSortScore (cleanS leed.address_norm) b)
        (intScore cfg.fuzzy_address_threshold) = false ∧
      (∀ p ∈ tier4cands nyc (cleanS leed.zip_norm)
          (cleanS leed.borough_norm),
        scoreLt (tokenSortScore (cleanS leed.address_norm) b)
          (tokenSortScore (cleanS leed.address_norm) p.2) = false) ∧
      m.match_confidence = min 89 (max 70 (pyIntFrac
        (70 * (100 - cfg.fuzzy_address_threshold) *
            (tokenSortScore (cleanS leed.address_norm) b).den +
          ((tokenSortScore (cleanS leed.address_norm) b).num -
            cfg.fuzzy_address_threshold *
              (tokenSortScore (cleanS leed.address_norm) b).den) * 19)
        ((100 - cfg.fuzzy_address_threshold) *
          (tokenSortScore (cleanS leed.address_norm) b).den))) := by
  rcases matchOne_split cfg nyc leed _ h with
    ⟨s, i, hs, hi, heq⟩ | ⟨s, hs, hi, heq⟩
  · injection heq with hminj
    have hm : s.meth = "fuzzy_address" := by
      rw [hminj] at hfm
      exact hfm
    have hmi : m.nyc_index = i := by
      rw [hminj]
    have hmc : m.match_confidence = s.conf := by
      rw [hminj]
    obtain ⟨s5, h4, h5⟩ := matchState_decomp cfg nyc leed s hs
    have hs5 : s = s5 := by
      rcases tier5_spec _ _ _ _ _ _ _ h5 with heq5 | hfz5
      · exact heq5
      · obtain ⟨-, -, mstr, sc, i5, c, -, -, -, hst⟩ := hfz5
        rw [hst] at hm
        exact absurd (show ("fuzzy_name" : String) = "fuzzy_address"
          from hm) (by decide)
    subst hs5
    rcases tier4_spec _ _ _ _ _ _ _ h4 with heq4 | hfz4
    · exfalso
      rw [heq4] at hm
      rcases prefixState_pre nyc (cleanS leed.bbl_norm)
        (cleanS leed.bin_norm) (cleanS leed.address_norm)
        (cleanS leed.zip_norm) (cleanS leed.borough_norm) with
        hinit | ⟨hm0, -⟩ | ⟨hm0, -⟩ | ⟨hm0, -⟩ | ⟨hm0, -⟩ | ⟨hm0, -⟩
      · rw [hinit] at hm
        exact absurd hm (by decide)
      all_goals rw [hm0] at hm
      all_goals exact absurd hm (by decide)
    · obtain ⟨hlt80, hladdr, mstr, sc, i4, c, hext, hconf, -, hst⟩ := hfz4
      have hidx : s.idx = some i4 := by
        rw [hst]
      have hii : i = i4 := by
        rw [hidx] at hi
        injection hi with hi
        exact hi.symm
      have hspec := extractOne_spec (cleanS leed.address_norm)
        (tier4cands nyc (cleanS leed.zip_norm) (cleanS leed.borough_norm))
        (intScore cfg.fuzzy_address_threshold) (intScore_den_pos _)
        mstr sc i4 hext
      obtain ⟨hcmem, hsc, hcut, hmax⟩ := hspec
      obtain ⟨z, nm, hamem, hzcond⟩ :=
        (tier4cands_mem_iff nyc _ _ i4 mstr).mp hcmem
      have hcfacts := fuzzyConf_eq_ok 70 89 cfg.fuzzy_address_threshold
        sc hta
      rw [hcfacts] at hconf
      injection hconf with hconf
      have hsconf : s.conf = c := by
        rw [hst]
      refine ⟨hladdr, hlt80,
        fun j b => tier4cands_mem_iff nyc _ _ j b, mstr, z, nm, ?_, ?_,
        ?_, ?_, ?_⟩
      · rw [hmi, hii]
        exact hamem
      · rw [hmi, hii]
        exact hzcond
      · rw [← hsc]
        exact hcut
      · intro p hp
        rw [← hsc]
        exact hmax p hp
      · rw [hmc, hsconf, ← hconf, ← hsc]
  · cases heq

/-- Witness for C2 at the zip-mismatch borough-fallback scenario. -/
theorem c2_fuzzy_address_tier_amended_witness :
    cleanS "AAAAAAAA B" ≠ "" :=
  (c2_fuzzy_address_tier_amended defaultCfg
    [⟨"", "", "AAAAAAAA C", "10002", "", "QUEENS"⟩]
    ⟨"L2", "", "", "AAAAAAAA B", "10001", "", "QUEENS", "", "", ""⟩
    ⟨"L2", 0, 79, "fuzzy_address", "score=90, addr=AAAAAAAA C"⟩
    (by decide) (by decide) rfl).1

/-! ### Machinery: manual override semantics -/

/-- Under unique LEED ids, updating the rows with a given id (as a
`match` decision does) and then filtering for that id yields exactly
the unique updated row. -/
theorem filter_update (lid nid nts : String) :
    ∀ rows : List MRow,
      (rows.map (fun r => r.leed_source_id)).Nodup →
      rows.any (fun r => r.leed_source_id = lid) = true →
      ∃ r0, r0 ∈ rows ∧ r0.leed_source_id = lid ∧
        ((rows.map (fun r =>
            if r.leed_source_id = lid then
              { r with
                nyc_source_id := some nid
                match_confidence := 100
                match_method := "manual_review"
                match_notes := nts }
            else r)).filter
          (fun r => r.leed_source_id = lid)) =
        [{ r0 with
            nyc_source_id := some nid
            match_confidence := 100
            match_method := "manual_review"
            match_notes := nts }] := by
  intro rows
  induction rows with
  | nil =>
    intro _ hany
    cases hany
  | cons r rs ih =>
    intro hnd hany
    rw [List.map_cons, List.nodup_cons] at hnd
    by_cases hr : r.leed_source_id = lid
    · refine ⟨r, List.mem_cons_self _ _, hr, ?_⟩
      have htail : ∀ x ∈ rs.map (fun r =>
          if r.leed_source_id = lid then
            { r with
              nyc_source_id := some nid
              match_confidence := 100
              match_method := "manual_review"
              match_notes := nts }
          else r),
          ¬ x.leed_source_id = lid := by
        intro x hx
        obtain ⟨r1, hr1, hfx⟩ := List.mem_map.mp hx
        have hne : r1.leed_source_id ≠ lid := by
          intro hcontra
          apply hnd.1
          rw [hr]
          exact List.mem_map.mpr ⟨r1, hr1, hcontra⟩
        rw [← hfx, if_neg hne]
        exact hne
      rw [List.map_cons, if_pos hr, List.filter_cons,
        if_pos (by simpa using hr)]
      rw [List.filter_eq_nil_iff.mpr (by simpa using htail)]
    · have hany' : rs.any (fun r => r.leed_source_id = lid) = true := by
        simpa [List.any_cons, hr] using hany
      obtain ⟨r0, hr0mem, hr0id, hfil⟩ := ih hnd.2 hany'
      refine ⟨r0, List.mem_cons_of_mem _ hr0mem, hr0id, ?_⟩
      rw [List.map_cons, if_neg hr, List.filter_cons,
        if_neg (by simpa using hr), hfil]

/-- A rejected id has no surviving rows. -/
theorem applyDecision_reject (rows : List MRow) (d : MDecision)
    (hd : d.decision = "reject") :
    (applyDecision rows d).filter
      (fun r => r.leed_source_id = d.leed_source_id) = [] := by
  unfold applyDecision
  rw [if_pos hd]
  apply List.filter_eq_nil_iff.mpr
  intro r hr
  have := (List.mem_filter.mp hr).2
  simpa using this

/-- A `match` decision leaves exactly one row for the id, with target
id, confidence 100, method `manual_review` and the decision's notes. -/
theorem applyDecision_match (rows : List MRow) (d : MDecision)
    (hd : d.decision = "match")
    (hnd : (rows.map (fun r => r.leed_source_id)).Nodup) :
    ∃ r', (applyDecision rows d).filter
        (fun r => r.leed_source_id = d.leed_source_id) = [r'] ∧
      r'.leed_source_id = d.leed_source_id ∧
      r'.nyc_source_id = some d.nyc_source_id ∧
      r'.match_confidence = 100 ∧
      r'.match_method = "manual_review" ∧
      r'.match_notes = d.notes := by
  unfold applyDecision
  rw [if_neg (by rw [hd]; decide), if_pos hd]
  by_cases hany : rows.any
      (fun r => r.leed_source_id = d.leed_source_id) = true
  · rw [if_pos hany]
    obtain ⟨r0, -, hr0id, hfil⟩ := filter_update d.leed_source_id
      d.nyc_source_id d.notes rows hnd hany
    exact ⟨_, hfil, hr0id, rfl, rfl, rfl, rfl⟩
  · rw [if_neg hany]
    refine ⟨⟨d.leed_source_id, none, some d.nyc_source_id, 100,
      "manual_review", d.notes⟩, ?_, rfl, rfl, rfl, rfl, rfl⟩
    rw [List.filter_append]
    rw [List.filter_eq_nil_iff.mpr ?hleft]
    · simp
    case hleft =>
      intro r hr
      simp only [List.any_eq_true, not_exists, not_and] at hany
      simpa using hany r hr

/-- Any decision that is neither `reject` nor `match` (in particular
`skip`) mutates nothing. -/
theorem applyDecision_skip (rows : List MRow) (d : MDecision)
    (hr : d.decision ≠ "reject") (hm : d.decision ≠ "match") :
    applyDecision rows d = rows := by
  unfold applyDecision
  rw [if_neg hr, if_neg hm]

/-- One decision preserves uniqueness of the LEED ids. -/
theorem applyDecision_nodup (rows : List MRow) (d : MDecision)
    (hnd : (rows.map (fun r => r.leed_source_id)).Nodup) :
    ((applyDecision rows d).map (fun r => r.leed_source_id)).Nodup := by
  unfold applyDecision
  split
  · exact List.Nodup.sublist
      (List.Sublist.map _ (List.filter_sublist rows)) hnd
  · split
    · split
      · rw [List.map_map]
        have heq : rows.map ((fun r : MRow => r.leed_source_id) ∘
            (fun r => if r.leed_source_id = d.leed_source_id then
              { r with
                nyc_source_id := some d.nyc_source_id
                match_confidence := 100
                match_method := "manual_review"
                match_notes := d.notes }
            else r)) = rows.map (fun r => r.leed_source_id) := by
          apply List.map_congr_left
          intro r _
          by_cases h : r.leed_source_id = d.leed_source_id
          · simp only [Function.comp_apply, if_pos h]
          · simp only [Function.comp_apply, if_neg h]
        rw [heq]
        exact hnd
      · rename_i hany
        rw [List.map_append, List.nodup_append]
        refine ⟨hnd, List.nodup_singleton _, ?_⟩
        intro x hx
        obtain ⟨r1, hr1, hid⟩ := List.mem_map.mp hx
        simp only [List.any_eq_true, not_exists, not_and] at hany
        have hne := hany r1 hr1
        simp only [List.map_cons, List.map_nil, List.mem_singleton]
        intro hcontra
        apply hne
        rw [← hid] at hcontra
        simpa using hcontra
    · exact hnd

/-- A decision list preserves uniqueness of the LEED ids. -/
theorem applyDecisions_nodup (rows : List MRow) (ds : List MDecision)
    (hnd : (rows.map (fun r => r.leed_source_id)).Nodup) :
    ((applyDecisions rows ds).map (fun r => r.leed_source_id)).Nodup := by
  induction ds generalizing rows with
  | nil => exact hnd
  | cons d ds ih =>
    exact ih (applyDecision rows d) (applyDecision_nodup rows d hnd)

/-- Replaying `ds ++ [d]` is replaying `ds` and then `d`. -/
theorem applyDecisions_append (rows : List MRow) (ds : List MDecision)
    (d : MDecision) :
    applyDecisions rows (ds ++ [d]) =
      applyDecision (applyDecisions rows ds) d := by
  unfold applyDecisions
  rw [List.foldl_append]
  rfl

/-- C4: semantics of manual override decisions on a matched set with
unique source-A ids (the data model's `source_id` is unique within its
source).  A `match` decision leaves exactly one row for its id, with
confidence 100, method `manual_review`, the decision's target id and
notes — updating in place or appending; a `reject` decision leaves no
row with that id; a `skip` decision (any decision other than `match` /
`reject`) changes nothing; id-uniqueness is preserved by any decision
list; and a later decision for an id supersedes earlier ones — after
`ds ++ [d]` the rows for `d`'s id are determined by `d` alone. -/
theorem c4_manual_override_semantics (rows : List MRow) (d : MDecision)
    (ds : List MDecision)
    (hnd : (rows.map (fun r => r.leed_source_id)).Nodup) :
    (d.decision = "match" →
      ∃ r', (applyDecision rows d).filter
          (fun r => r.leed_source_id = d.leed_source_id) = [r'] ∧
        r'.leed_source_id = d.leed_source_id ∧
        r'.nyc_source_id = some d.nyc_source_id ∧
        r'.match_confidence = 100 ∧
        r'.match_method = "manual_review" ∧
        r'.match_notes = d.notes) ∧
    (d.decision = "reject" →
      (applyDecision rows d).filter
        (fun r => r.leed_source_id = d.leed_source_id) = []) ∧
    (d.decision = "skip" → applyDecision rows d = rows) ∧
    ((applyDecisions rows ds).map (fun r => r.leed_source_id)).Nodup ∧
    (d.decision = "match" →
      ∃ r', (applyDecisions rows (ds ++ [d])).filter
          (fun r => r.leed_source_id = d.leed_source_id) = [r'] ∧
        r'.leed_source_id = d.leed_source_id ∧
        r'.nyc_source_id = some d.nyc_source_id ∧
        r'.match_confidence = 100 ∧
        r'.match_method = "manual_review" ∧
        r'.match_notes = d.notes) ∧
    (d.decision = "reject" →
      (applyDecisions rows (ds ++ [d])).filter
        (fun r => r.leed_source_id = d.leed_source_id) = []) := by
  refine ⟨?_, ?_, ?_, ?_, ?_, ?_⟩
  · intro hd
    exact applyDecision_match rows d hd hnd
  · intro hd
    exact applyDecision_reject rows d hd
  · intro hd
    exact applyDecision_skip rows d (by rw [hd]; decide) (by rw [hd]; decide)
  · exact applyDecisions_nodup rows ds hnd
  · intro hd
    rw [applyDecisions_append]
    exact applyDecision_match _ d hd (applyDecisions_nodup rows ds hnd)
  · intro hd
    rw [applyDecisions_append]
    exact applyDecision_reject _ d hd

/-- Witness for C4: a `skip` decision leaves a concrete one-row matched
set unchanged. -/
theorem c4_manual_override_semantics_witness :
    applyDecision [⟨"L1", some 0, none, 85, "exact_address_no_zip", "a"⟩]
      ⟨"L1", "N9", "skip", ""⟩ =
      [⟨"L1", some 0, none, 85, "exact_address_no_zip", "a"⟩] :=
  (c4_manual_override_semantics
    [⟨"L1", some 0, none, 85, "exact_address_no_zip", "a"⟩]
    ⟨"L1", "N9", "skip", ""⟩ [] (by decide)).2.2.1 rfl

/-! ### Machinery: master-table cells and columns -/

/-- Reading a cons row whose head entry carries the key. -/
theorem rowGet_cons_self (p : String × Val) (ps : List (String × Val))
    (c : String) (h : p.1 = c) : rowGet (p :: ps) c = p.2 := by
  unfold rowGet
  rw [List.find?_cons_of_pos _ (by simpa using h)]

/-- Reading a cons row past a head entry with a different key. -/
theorem rowGet_cons_ne (p : String × Val) (ps : List (String × Val))
    (c : String) (h : ¬ p.1 = c) : rowGet (p :: ps) c = rowGet ps c := by
  unfold rowGet
  rw [List.find?_cons_of_neg _ (by simpa using h)]

/-- Updating an existing entry makes it the value read back. -/
theorem rowGet_upd (c : String) (v : Val) :
    ∀ r : List (String × Val),
      (r.find? (fun p => p.1 = c)).isSome = true →
      rowGet (r.map (fun p => if p.1 = c then (c, v) else p)) c = v := by
  intro r
  induction r with
  | nil =>
    intro h
    simp at h
  | cons p ps ih =>
    intro h
    rw [List.map_cons]
    by_cases hp : p.1 = c
    · rw [if_pos hp]
      exact rowGet_cons_self (c, v) _ c rfl
    · rw [if_neg hp, rowGet_cons_ne p _ c hp]
      apply ih
      rwa [List.find?_cons_of_neg _ (by simpa using hp)] at h

/-- Appending a fresh entry makes it the value read back. -/
theorem rowGet_append_new (c : String) (v : Val) :
    ∀ r : List (String × Val),
      r.find? (fun p => p.1 = c) = none →
      rowGet (r ++ [(c, v)]) c = v := by
  intro r
  induction r with
  | nil =>
    intro _
    exact rowGet_cons_self (c, v) _ c rfl
  | cons p ps ih =>
    intro h
    by_cases hp : p.1 = c
    · rw [List.find?_cons_of_pos _ (by simpa using hp)] at h
      cases h
    · rw [List.cons_append, rowGet_cons_ne p _ c hp]
      apply ih
      rwa [List.find?_cons_of_neg _ (by simpa using hp)] at h

/-- `rowSet` then `rowGet` at the same key gives the written value. -/
theorem rowGet_rowSet_self (r : List (String × Val)) (c : String)
    (v : Val) : rowGet (rowSet r c v) c = v := by
  unfold rowSet
  by_cases h : (r.find? (fun p => p.1 = c)).isSome = true
  · rw [if_pos h]
    exact rowGet_upd c v r h
  · rw [if_neg h]
    exact rowGet_append_new c v r
      (Option.not_isSome_iff_eq_none.mp (by simpa using h))

/-- Updating entries of one key does not change reads at another. -/
theorem rowGet_upd_ne (c c' : String) (v : Val) (hne : c' ≠ c) :
    ∀ r : List (String × Val),
      rowGet (r.map (fun p => if p.1 = c then (c, v) else p)) c' =
        rowGet r c' := by
  intro r
  induction r with
  | nil => rfl
  | cons p ps ih =>
    rw [List.map_cons]
    by_cases hp : p.1 = c
    · rw [if_pos hp]
      rw [rowGet_cons_ne (c, v) _ c' (by simpa using hne.symm)]
      rw [rowGet_cons_ne p _ c' (by rw [hp]; exact fun hc => hne hc.symm)]
      exact ih
    · rw [if_neg hp]
      by_cases hp' : p.1 = c'
      · rw [rowGet_cons_self p _ c' hp', rowGet_cons_self p _ c' hp']
      · rw [rowGet_cons_ne p _ c' hp', rowGet_cons_ne p _ c' hp']
        exact ih

/-- Appending an entry of one key does not change reads at another. -/
theorem rowGet_append_ne (c c' : String) (v : Val) (hne : c' ≠ c) :
    ∀ r : List (String × Val),
      rowGet (r ++ [(c, v)]) c' = rowGet r c' := by
  intro r
  induction r with
  | nil =>
    rw [List.nil_append]
    rw [rowGet_cons_ne (c, v) _ c' (by simpa using hne.symm)]
  | cons p ps ih =>
    rw [List.cons_append]
    by_cases hp' : p.1 = c'
    · rw [rowGet_cons_self p _ c' hp', rowGet_cons_self p _ c' hp']
    · rw [rowGet_cons_ne p _ c' hp', rowGet_cons_ne p _ c' hp']
      exact ih

/-- `rowSet` at one key does not change reads at another. -/
theorem rowGet_rowSet_ne (r : List (String × Val)) (c c' : String)
    (v : Val) (hne : c' ≠ c) : rowGet (rowSet r c v) c' = rowGet r c' := by
  unfold rowSet
  split
  · exact rowGet_upd_ne c c' v hne r
  · exact rowGet_append_ne c c' v hne r

/-- `setCol` keeps every column already present. -/
theorem setCol_cols_sup (t : Table) (c : String)
    (f : List (String × Val) → Val) (c' : String) (h : c' ∈ t.cols) :
    c' ∈ (setCol t c f).cols := by
  unfold setCol
  dsimp only
  split
  · exact h
  · exact List.mem_append_left _ h

/-- `setCol` makes its own column present. -/
theorem setCol_cols_self (t : Table) (c : String)
    (f : List (String × Val) → Val) : c ∈ (setCol t c f).cols := by
  unfold setCol
  dsimp only
  split
  · rename_i h
    exact List.elem_iff.mp h
  · exact List.mem_append_right _ (List.mem_singleton.mpr rfl)

/-- `setCol` keeps the number of rows. -/
theorem setCol_rows_length (t : Table) (c : String)
    (f : List (String × Val) → Val) :
    (setCol t c f).rows.length = t.rows.length := by
  unfold setCol
  exact List.length_map _ _

/-- A per-row cell predicate at another column survives `setCol`. -/
theorem setCol_pred (P : Val → Prop) (t : Table) (c : String)
    (f : List (String × Val) → Val) (c' : String) (hne : c' ≠ c)
    (h : ∀ r ∈ t.rows, P (rowGet r c')) :
    ∀ r ∈ (setCol t c f).rows, P (rowGet r c') := by
  intro r' hr'
  obtain ⟨r, hr, hfr⟩ := List.mem_map.mp hr'
  rw [← hfr, rowGet_rowSet_ne r c c' (f r) hne]
  exact h r hr

/-- Invariant preservation through a `foldl` over table steps. -/
theorem foldl_table_inv {β : Type} (Q : Table → Prop)
    (step : Table → β → Table) :
    ∀ (l : List β) (t : Table),
      (∀ t' b, b ∈ l → Q t' → Q (step t' b)) → Q t →
      Q (l.foldl step t) := by
  intro l
  induction l with
  | nil =>
    intro t _ h
    exact h
  | cons b bs ih =>
    intro t hstep h
    exact ih (step t b)
      (fun t' b' hb' => hstep t' b' (List.mem_cons_of_mem _ hb'))
      (hstep t b (List.mem_cons_self _ _) h)

/-- The LEED join preserves per-row cell predicates at columns it does
not write. -/
theorem leedJoin_pred (leed t : Table) (c' : String) (P : Val → Prop)
    (hc : ∀ col ∈ LEED_JOIN_COLS, c' ≠ col)
    (h : ∀ r ∈ t.rows, P (rowGet r c')) :
    ∀ r ∈ (leedJoin leed t).rows, P (rowGet r c') := by
  unfold leedJoin
  refine foldl_table_inv (fun tb => ∀ r ∈ tb.rows, P (rowGet r c')) _
    LEED_JOIN_COLS t ?_ h
  intro t' col hcol ht'
  dsimp only
  split
  · exact setCol_pred P t' col _ c' (hc col hcol) ht'
  · exact ht'

/-- The grades join preserves per-row cell predicates at columns it
does not write. -/
theorem gradesJoin_pred (grades t : Table) (c' : String) (P : Val → Prop)
    (hc : ∀ p ∈ GRADES_PAIRS, c' ≠ p.2)
    (h : ∀ r ∈ t.rows, P (rowGet r c')) :
    ∀ r ∈ (gradesJoin grades t).rows, P (rowGet r c') := by
  unfold gradesJoin
  split
  · refine foldl_table_inv (fun tb => ∀ r ∈ tb.rows, P (rowGet r c')) _
      GRADES_PAIRS t ?_ h
    intro t' pair hpair ht'
    dsimp only
    split
    · exact setCol_pred P t' pair.2 _ c' (hc pair hpair) ht'
    · exact ht'
  · exact h

/-- The LL97 join preserves per-row cell predicates at columns it does
not write. -/
theorem ll97Join_pred (ll97 t : Table) (c' : String) (P : Val → Prop)
    (hc : ∀ col ∈ LL97_COLS, c' ≠ col)
    (h : ∀ r ∈ t.rows, P (rowGet r c')) :
    ∀ r ∈ (ll97Join ll97 t).rows, P (rowGet r c') := by
  unfold ll97Join
  split
  · dsimp only
    split
    · refine foldl_table_inv (fun tb => ∀ r ∈ tb.rows, P (rowGet r c')) _
        _ t ?_ h
      intro t' col hcol ht'
      refine setCol_pred P t' col _ c' ?_ ht'
      have hmem : col ∈ LL97_COLS :=
        (List.mem_filter.mp (List.mem_filter.mp hcol).1).1
      exact hc col hmem
    · exact h
  · exact h

/-- The benchmarking join preserves per-row cell predicates at columns
it does not write. -/
theorem benchJoin_pred (bench t : Table) (c' : String) (P : Val → Prop)
    (hc : ∀ col ∈ BENCH_COLS, c' ≠ col)
    (h : ∀ r ∈ t.rows, P (rowGet r c')) :
    ∀ r ∈ (benchJoin bench t).rows, P (rowGet r c') := by
  unfold benchJoin
  split
  · dsimp only
    split
    · refine foldl_table_inv (fun tb => ∀ r ∈ tb.rows, P (rowGet r c')) _
        _ t ?_ h
      intro t' col hcol ht'
      have hmem : col ∈ BENCH_COLS :=
        (List.mem_filter.mp (List.mem_filter.mp hcol).1).1
      split
      · exact setCol_pred P t' col _ c' (hc col hmem) ht'
      · exact ht'
    · exact h
  · exact h

/-- The contract loop preserves per-row cell predicates at columns
outside the contract. -/
theorem contractFill_pred (t : Table) (c' : String) (P : Val → Prop)
    (hc : ∀ col ∈ CONTRACT_COLS, c' ≠ col)
    (h : ∀ r ∈ t.rows, P (rowGet r c')) :
    ∀ r ∈ (contractFill t).rows, P (rowGet r c') := by
  unfold contractFill
  refine foldl_table_inv (fun tb => ∀ r ∈ tb.rows, P (rowGet r c')) _
    CONTRACT_COLS t ?_ h
  intro t' col hcol ht'
  split
  · exact setCol_pred P t' col _ c' (hc col hcol) ht'
  · exact ht'

/-- The contract loop keeps an all-null `bin` column all-null (it
either backfills `bin` with the null sentinel or leaves it alone). -/
theorem contractFill_bin_none (t : Table)
    (h : ∀ r ∈ t.rows, rowGet r "bin" = Val.vNone) :
    ∀ r ∈ (contractFill t).rows, rowGet r "bin" = Val.vNone := by
  unfold contractFill
  refine foldl_table_inv
    (fun tb => ∀ r ∈ tb.rows, rowGet r "bin" = Val.vNone) _
    CONTRACT_COLS t ?_ h
  intro t' col hcol ht'
  split
  · by_cases hbin : col = "bin"
    · subst hbin
      intro r' hr'
      obtain ⟨r, hr, hfr⟩ := List.mem_map.mp hr'
      rw [← hfr]
      exact rowGet_rowSet_self r "bin" Val.vNone
    · exact setCol_pred (fun v => v = Val.vNone) t' col _ "bin"
        (fun hcontra => hbin hcontra.symm) ht'
  · exact ht'

/-- After the contract loop, every contract column (and every column
already present) is present. -/
theorem contractFill_aux_cols :
    ∀ (l : List String) (t : Table) (c : String), c ∈ l ∨ c ∈ t.cols →
      c ∈ (l.foldl (fun m col =>
        if ¬ m.cols.contains col then setCol m col (fun _ => Val.vNone)
        else m) t).cols := by
  intro l
  induction l with
  | nil =>
    intro t c h
    rcases h with h | h
    · cases h
    · exact h
  | cons c0 cs ih =>
    intro t c h
    rw [List.foldl_cons]
    apply ih
    rcases h with h | h
    · rcases List.mem_cons.mp h with rfl | h
      · right
        split
        · exact setCol_cols_self t c _
        · rename_i hcon
          rw [not_not] at hcon
          exact List.elem_iff.mp hcon
      · left
        exact h
    · right
      split
      · exact setCol_cols_sup t c0 _ c h
      · exact h

/-- Every contract column is present after the contract loop. -/
theorem contractFill_cols (t : Table) :
    ∀ c ∈ CONTRACT_COLS, c ∈ (contractFill t).cols := by
  intro c hc
  unfold contractFill
  exact contractFill_aux_cols CONTRACT_COLS t c (Or.inl hc)

/-- The LEED join keeps the number of rows. -/
theorem leedJoin_len (leed t : Table) :
    (leedJoin leed t).rows.length = t.rows.length := by
  unfold leedJoin
  refine foldl_table_inv (fun tb => tb.rows.length = t.rows.length) _
    LEED_JOIN_COLS t ?_ rfl
  intro t' col hcol ht'
  dsimp only
  split
  · rw [setCol_rows_length]
    exact ht'
  · exact ht'

/-- The grades join keeps the number of rows. -/
theorem gradesJoin_len (grades t : Table) :
    (gradesJoin grades t).rows.length = t.rows.length := by
  unfold gradesJoin
  split
  · refine foldl_table_inv (fun tb => tb.rows.length = t.rows.length) _
      GRADES_PAIRS t ?_ rfl
    intro t' pair hpair ht'
    dsimp only
    split
    · rw [setCol_rows_length]
      exact ht'
    · exact ht'
  · rfl

/-- The LL97 join keeps the number of rows. -/
theorem ll97Join_len (ll97 t : Table) :
    (ll97Join ll97 t).rows.length = t.rows.length := by
  unfold ll97Join
  split
  · dsimp only
    split
    · refine foldl_table_inv (fun tb => tb.rows.length = t.rows.length) _
        _ t ?_ rfl
      intro t' col hcol ht'
      rw [setCol_rows_length]
      exact ht'
    · rfl
  · rfl

/-- The benchmarking join keeps the number of rows. -/
theorem benchJoin_len (bench t : Table) :
    (benchJoin bench t).rows.length = t.rows.length := by
  unfold benchJoin
  split
  · dsimp only
    split
    · refine foldl_table_inv (fun tb => tb.rows.length = t.rows.length) _
        _ t ?_ rfl
      intro t' col hcol ht'
      split
      · rw [setCol_rows_length]
        exact ht'
      · exact ht'
    · rfl
  · rfl

/-- The contract loop keeps the number of rows. -/
theorem contractFill_len (t : Table) :
    (contractFill t).rows.length = t.rows.length := by
  unfold contractFill
  refine foldl_table_inv (fun tb => tb.rows.length = t.rows.length) _
    CONTRACT_COLS t ?_ rfl
  intro t' col hcol ht'
  split
  · rw [setCol_rows_length]
    exact ht'
  · exact ht'

/-- Writing `source_id` as a copy of `leed_source_id` makes the two
cells equal in every row. -/
theorem setCol_source_eq (t : Table) :
    ∀ r ∈ (setCol t "source_id"
      (fun r => rowGet r "leed_source_id")).rows,
      rowGet r "source_id" = rowGet r "leed_source_id" := by
  intro r' hr'
  obtain ⟨r, hr, hfr⟩ := List.mem_map.mp hr'
  rw [← hfr, rowGet_rowSet_self,
    rowGet_rowSet_ne r _ _ _ (by decide)]

/-- C6 counterexample: with an empty matched set `build_master_table`
short-circuits to `pd.DataFrame()` — an empty frame with NO columns —
so no contract column (here: `source_id`) exists in the output, against
the claim's "including an empty matched set". -/
theorem c6_empty_matched_counterexample :
    build_master_table ⟨["source_id"], [[("source_id", Val.vStr "A1")]]⟩
      emptyTable emptyTable emptyTable [] = emptyTable ∧
    ¬ ("source_id" ∈ (build_master_table
      ⟨["source_id"], [[("source_id", Val.vStr "A1")]]⟩
      emptyTable emptyTable emptyTable []).cols) := by
  constructor
  · rfl
  · decide

/-- C6 amended: for every NON-empty matched set, every column of the
fixed output contract exists in the output (backfilled with the null
sentinel when no join populated it — e.g. `bin`, which no join writes,
is null in every row), the output has one row per matched row, and
every output row's `source_id` equals its `leed_source_id`, which is
the source-A id of the matched row it was built from.  An empty
matched set instead yields an empty, column-less frame. -/
theorem c6_master_contract_amended (leed grades bench ll97 : Table)
    (matched : List MRow) (hne : matched ≠ []) :
    (∀ c ∈ CONTRACT_COLS,
      c ∈ (build_master_table leed grades bench ll97 matched).cols) ∧
    (build_master_table leed grades bench ll97 matched).rows.length =
      matched.length ∧
    (∀ r ∈ (build_master_table leed grades bench ll97 matched).rows,
      rowGet r "source_id" = rowGet r "leed_source_id") ∧
    (∀ r ∈ (build_master_table leed grades bench ll97 matched).rows,
      ∃ m ∈ matched,
        rowGet r "leed_source_id" = Val.vStr m.leed_source_id) ∧
    (∀ r ∈ (build_master_table leed grades bench ll97 matched).rows,
      rowGet r "bin" = Val.vNone) := by
  have hbdef : build_master_table leed grades bench ll97 matched =
      setCol (contractFill (benchJoin bench (ll97Join ll97
        (gradesJoin grades (leedJoin leed
          ⟨MROW_COLS, matched.map mrowToRow⟩)))))
        "source_id" (fun r => rowGet r "leed_source_id") := by
    unfold build_master_table
    rw [if_neg hne]
  rw [hbdef]
  have h0prov : ∀ r ∈ (⟨MROW_COLS, matched.map mrowToRow⟩ : Table).rows,
      ∃ m ∈ matched,
        rowGet r "leed_source_id" = Val.vStr m.leed_source_id := by
    intro r hr
    obtain ⟨m, hm, hfr⟩ := List.mem_map.mp hr
    exact ⟨m, hm, by rw [← hfr]; rfl⟩
  have h0bin : ∀ r ∈ (⟨MROW_COLS, matched.map mrowToRow⟩ : Table).rows,
      rowGet r "bin" = Val.vNone := by
    intro r hr
    obtain ⟨m, hm, hfr⟩ := List.mem_map.mp hr
    rw [← hfr]
    rfl
  have hprov :
      ∀ r ∈ (contractFill (benchJoin bench (ll97Join ll97
        (gradesJoin grades (leedJoin leed
          ⟨MROW_COLS, matched.map mrowToRow⟩))))).rows,
      ∃ m ∈ matched,
        rowGet r "leed_source_id" = Val.vStr m.leed_source_id :=
    contractFill_pred _ "leed_source_id"
      (fun v => ∃ m ∈ matched, v = Val.vStr m.leed_source_id) (by decide)
      (benchJoin_pred _ _ "leed_source_id"
        (fun v => ∃ m ∈ matched, v = Val.vStr m.leed_source_id) (by decide)
        (ll97Join_pred _ _ "leed_source_id"
          (fun v => ∃ m ∈ matched, v = Val.vStr m.leed_source_id) (by decide)
          (gradesJoin_pred _ _ "leed_source_id"
            (fun v => ∃ m ∈ matched, v = Val.vStr m.leed_source_id) (by decide)
            (leedJoin_pred _ _ "leed_source_id"
              (fun v => ∃ m ∈ matched, v = Val.vStr m.leed_source_id)
              (by decide) h0prov))))
  have hbin :
      ∀ r ∈ (contractFill (benchJoin bench (ll97Join ll97
        (gradesJoin grades (leedJoin leed
          ⟨MROW_COLS, matched.map mrowToRow⟩))))).rows,
      rowGet r "bin" = Val.vNone :=
    contractFill_bin_none _
      (benchJoin_pred _ _ "bin" (fun v => v = Val.vNone) (by decide)
        (ll97Join_pred _ _ "bin" (fun v => v = Val.vNone) (by decide)
          (gradesJoin_pred _ _ "bin" (fun v => v = Val.vNone) (by decide)
            (leedJoin_pred _ _ "bin" (fun v => v = Val.vNone)
              (by decide) h0bin))))
  refine ⟨?_, ?_, ?_, ?_, ?_⟩
  · intro c hc
    exact setCol_cols_sup _ _ _ c (contractFill_cols _ c hc)
  · rw [setCol_rows_length, contractFill_len, benchJoin_len,
      ll97Join_len, gradesJoin_len, leedJoin_len]
    exact List.length_map _ _
  · exact setCol_source_eq _
  · exact setCol_pred
      (fun v => ∃ m ∈ matched, v = Val.vStr m.leed_source_id) _
      "source_id" _ "leed_source_id" (by decide) hprov
  · exact setCol_pred (fun v => v = Val.vNone) _
      "source_id" _ "bin" (by decide) hbin

/-- Witness for C6 on a one-row matched set: the never-populated
contract column `bin` exists in the output. -/
theorem c6_master_contract_amended_witness :
    "bin" ∈ (build_master_table emptyTable emptyTable emptyTable
      emptyTable [⟨"L1", some 0, none, 100, "exact_bbl", "n"⟩]).cols :=
  (c6_master_contract_amended emptyTable emptyTable emptyTable emptyTable
    [⟨"L1", some 0, none, 100, "exact_bbl", "n"⟩] (by decide)).1
    "bin" (by decide)

end LeedLL97
